import Mathlib

set_option maxRecDepth 8000

/-!
# Verification of the pigeons-session-app session synchronization engine

This development shallowly embeds the data layer and socket handlers of the
repository's server variants:

* `ServerJs` — the Firestore-backed server with in-memory fallback
  (`src/server.js`, first document): `mem*` / `fs*` storage functions, the
  `api` record, the `socketMap`-based handlers.
* `Part000` — the Postgres server (`src/unnamed/part_000`): `ensureSession`
  with `COALESCE`-based owner assignment, `buildSessionState`, handlers.
* `Part001` — the Postgres/in-memory server (`src/unnamed/part_001`):
  `memDeletePick` / `pgDeletePick` and friends.
* `Part002` — the sqlite server (`src/unnamed/part_002`): in-memory session
  objects mirrored to the `user_picks` table, authorization checks in
  `set-song`.
* `Part003` — the Postgres server (`src/unnamed/part_003`): `buildSessionState`
  with `ORDER BY username COLLATE "C"` and the unvalidated `set-song` upsert.

JavaScript `Map`s and objects are modelled as insertion-ordered association
lists (`tblGet` / `tblSet` / `tblDel`), SQL tables as row lists, strings as
Lean `String`s manipulated through their character lists so that every
definition evaluates inside the kernel.  `decodeURIComponent` is the identity
on the percent-free session identifiers considered here, so the boundary
cleanup `decodeURIComponent(x).trim()` is modelled by `strTrim`.
-/

/-! ## Association lists (JavaScript Map / object semantics, SQL row lists) -/

/-- Lookup of the first binding of a key, as `Map.get` / object indexing. -/
def tblGet {α β : Type} [DecidableEq α] : List (α × β) → α → Option β
  | [], _ => none
  | (k, v) :: rest, key => if key = k then some v else tblGet rest key

/-- Update in place if the key is present, else append, as `Map.set` /
object property assignment / SQL upsert. -/
def tblSet {α β : Type} [DecidableEq α] : List (α × β) → α → β → List (α × β)
  | [], k, v => [(k, v)]
  | (k₂, v₂) :: rest, k, v =>
      if k = k₂ then (k, v) :: rest else (k₂, v₂) :: tblSet rest k v

/-- Removal of all bindings of a key, as `Map.delete` / `delete obj[k]` /
SQL `DELETE ... WHERE key = ...`. -/
def tblDel {α β : Type} [DecidableEq α] (l : List (α × β)) (k : α) : List (α × β) :=
  l.filter (fun p => decide (p.1 ≠ k))

/-- Update of the value stored at every row with the given key, as SQL
`UPDATE ... WHERE id = ...`. -/
def tblUpd {α β : Type} [DecidableEq α] (l : List (α × β)) (k : α) (f : β → β) :
    List (α × β) :=
  l.map (fun p => if p.1 = k then (p.1, f p.2) else p)

/-- Insertion into a set keeping insertion order, as `Set.add` /
`INSERT ... ON CONFLICT DO NOTHING`. -/
def setAdd {α : Type} [DecidableEq α] (l : List α) (a : α) : List α :=
  if a ∈ l then l else l ++ [a]

/-! ## Character-list string utilities -/

/-- Removal of leading whitespace from a character list. -/
def dropWs : List Char → List Char
  | [] => []
  | c :: cs => if c.isWhitespace then dropWs cs else c :: cs

/-- Model of JavaScript `String.prototype.trim` (and of
`decodeURIComponent(x).trim()` for percent-free inputs). -/
def strTrim (s : String) : String :=
  String.mk (dropWs ((dropWs s.data.reverse).reverse))

/-- Model of JavaScript `key.split('|')`: split at every pipe character,
keeping empty pieces. -/
def splitPipeCh : List Char → List (List Char)
  | [] => [[]]
  | c :: cs =>
      if c = '|' then [] :: splitPipeCh cs
      else
        match splitPipeCh cs with
        | [] => [[c]]
        | h :: t => (c :: h) :: t

def splitPipe (s : String) : List String := (splitPipeCh s.data).map String.mk

/-- Model of JavaScript `s.startsWith(p)`. -/
def listStarts : List Char → List Char → Bool
  | [], _ => true
  | _ :: _, [] => false
  | a :: as, b :: bs => a = b && listStarts as bs

def strStarts (s p : String) : Bool := listStarts p.data s.data

/-- First component of `key.split('|')` destructured as `[u, slot]`. -/
def keyUser (k : String) : String := (splitPipe k).headD ""

/-- Second component of `key.split('|')` destructured as `[u, slot]` (an
array with fewer than two entries yields the property name "undefined"). -/
def keySlot (k : String) : String := (splitPipe k)[1]?.getD "undefined"

/-- Predicate for strings that contain no pipe character. -/
def pipeFree (s : String) : Bool := s.data.all (fun c => decide (c ≠ '|'))

/-- Key of a pick in the in-memory backends: the template
`${username}|${slot}`. -/
def mkKey (u slot : String) : String := u ++ "|" ++ slot

/-- Well-formedness of an in-memory pick map: the keys are distinct and each
key is `username|slot` with pipe-free components. -/
def WfPicks (picks : List (String × String)) : Prop :=
  (picks.map Prod.fst).Nodup ∧
    ∀ p ∈ picks, pipeFree (keyUser p.1) = true ∧ pipeFree (keySlot p.1) = true ∧
      p.1 = mkKey (keyUser p.1) (keySlot p.1)

/-! ## Sorting (JavaScript `Array.prototype.sort` with the two comparators
used by the backends) -/

/-- Lexicographic comparison on character lists after projecting every
character through `key`. -/
def listLeBy (key : Char → Nat) : List Char → List Char → Bool
  | [], _ => true
  | _ :: _, [] => false
  | a :: as, b :: bs => if key a = key b then listLeBy key as bs else decide (key a < key b)

/-- Character key for the case-insensitive comparison: ASCII upper-case
letters are folded to lower case, as `localeCompare(..., { sensitivity:
"base" })` does on the ASCII names appearing here. -/
def ciKey (c : Char) : Nat := if 65 ≤ c.toNat ∧ c.toNat ≤ 90 then c.toNat + 32 else c.toNat

/-- Byte-wise string order, as Postgres `ORDER BY username COLLATE "C"`. -/
def leC (a b : String) : Bool := listLeBy Char.toNat a.data b.data

/-- Case-insensitive string order, as
`a.localeCompare(b, "en", { sensitivity: "base" })`. -/
def leCI (a b : String) : Bool := listLeBy ciKey a.data b.data

def insertAsc (le : String → String → Bool) (a : String) : List String → List String
  | [] => [a]
  | b :: bs => if le a b then a :: b :: bs else b :: insertAsc le a bs

/-- Model of a comparator sort: the output is sorted for the comparator and
is a permutation of the input. -/
def sortWith (le : String → String → Bool) : List String → List String
  | [] => []
  | a :: as => insertAsc le a (sortWith le as)

/-! ## Session snapshots and per-user boards -/

/-- Entry of the `users` array of a broadcast snapshot. -/
structure UserEntry where
  socketId : Option String
  username : String
deriving DecidableEq, Repr

/-- Shape of the state object broadcast as `update-session`:
`{ owner, users, userSongs }`. -/
structure SessionState where
  owner : Option String
  users : List UserEntry
  userSongs : List (String × List (String × String))
deriving DecidableEq, Repr

/-- Model of `if (!userSongs[u]) userSongs[u] = {}; userSongs[u][slot] = v`. -/
def addSong (songs : List (String × List (String × String))) (u slot v : String) :
    List (String × List (String × String)) :=
  tblSet songs u (tblSet ((tblGet songs u).getD []) slot v)

/-- Lookup of `userSongs[u][slot]`. -/
def boardGet (songs : List (String × List (String × String))) (u slot : String) :
    Option String :=
  (tblGet songs u).bind (fun b => tblGet b slot)

/-- Accumulation of `(username, slot, value)` rows into the nested
`userSongs` object, shared by every `buildState` variant. -/
def songsOfRows (acc : List (String × List (String × String)))
    (rows : List (String × String × String)) :
    List (String × List (String × String)) :=
  rows.foldl (fun songs r => addSong songs r.1 r.2.1 r.2.2) acc

/-! ## The Firestore-backed server with in-memory fallback (`src/server.js`) -/

namespace ServerJs

/-- Slot catalog of `src/server.js` (nine slots, including "Song 6"). -/
def SONG_SLOTS : List String :=
  ["Opener", "Song 2", "Song 3", "Song 4", "Song 5", "Song 6", "Encore", "Cover", "Bustout"]

/-- One entry of `mem.sessions`:
`{ users: Set, picks: Map("user|slot" -> value) }`. -/
structure MemSession where
  users : List String
  picks : List (String × String)
deriving DecidableEq, Repr

/-- The in-memory store `mem` (its `songs` set is outside the session core). -/
structure MemState where
  sessions : List (String × MemSession)
deriving DecidableEq, Repr

def memInit : MemState := ⟨[]⟩

/-- Model of `memEnsureSession`. -/
def memEnsureSession (m : MemState) (id : String) : MemState :=
  if (tblGet m.sessions id).isSome then m
  else ⟨m.sessions ++ [(id, ⟨[], []⟩)]⟩

/-- Model of `memEnsureUser`. -/
def memEnsureUser (m : MemState) (id username : String) : MemState :=
  let m₂ := memEnsureSession m id
  match tblGet m₂.sessions id with
  | some s => ⟨tblSet m₂.sessions id { s with users := setAdd s.users username }⟩
  | none => m₂

/-- Model of `memUpsertPick`. -/
def memUpsertPick (m : MemState) (id username slot value : String) : MemState :=
  let m₂ := memEnsureUser m id username
  match tblGet m₂.sessions id with
  | some s =>
      ⟨tblSet m₂.sessions id
        { s with picks := tblSet s.picks (mkKey username slot) value }⟩
  | none => m₂

/-- Model of `memDeletePick`. -/
def memDeletePick (m : MemState) (id username slot : String) : MemState :=
  match tblGet m.sessions id with
  | none => m
  | some s =>
      ⟨tblSet m.sessions id { s with picks := tblDel s.picks (mkKey username slot) }⟩

/-- Model of `memClearBoard`: delete every pick whose key starts with
`username + "|"`. -/
def memClearBoard (m : MemState) (id username : String) : MemState :=
  match tblGet m.sessions id with
  | none => m
  | some s =>
      ⟨tblSet m.sessions id
        { s with picks := s.picks.filter (fun p => !(strStarts p.1 (username ++ "|"))) }⟩

/-- Model of `memBuildState`: owner is always `null`, users are sorted
case-insensitively, boards are rebuilt by splitting each pick key at its
pipes and destructuring the first two components. -/
def memBuildState (m : MemState) (id : String) : SessionState :=
  let s := (tblGet m.sessions id).getD ⟨[], []⟩
  { owner := none
    users := (sortWith leCI s.users).map (fun u => ⟨none, u⟩)
    userSongs :=
      s.picks.foldl
        (fun songs kv => addSong songs (keyUser kv.1) (keySlot kv.1) kv.2) [] }

/-- Model of `userKey`: trim, then replace every "/" by "_". -/
def userKey (username : String) : String :=
  String.mk ((strTrim username).data.map (fun c => if c = '/' then '_' else c))

/-- The Firestore store: the set of session documents and the `users` and
`boards` subcollections, keyed by `(sessionId, docId)`.  Documents are flat
field maps; iteration order of rows models snapshot order. -/
structure FsState where
  sessions : List String
  users : List ((String × String) × String)
  boards : List ((String × String) × List (String × String))
deriving DecidableEq, Repr

def fsInit : FsState := ⟨[], [], []⟩

/-- Model of `fsEnsureSession`: `set({id}, {merge:true})` never overwrites
other fields, so only document existence matters. -/
def fsEnsureSession (st : FsState) (sessionId : String) : FsState :=
  { st with sessions := setAdd st.sessions sessionId }

/-- Model of `fsEnsureUser`. -/
def fsEnsureUser (st : FsState) (sessionId username : String) : FsState :=
  let st₂ := fsEnsureSession st sessionId
  { st₂ with users := tblSet st₂.users (sessionId, userKey username) username }

/-- Model of `fsUpsertPick`: a merge-set of `{username, [slot]: value}` on the
board document. -/
def fsUpsertPick (st : FsState) (sessionId username slot value : String) : FsState :=
  let st₂ := fsEnsureUser st sessionId username
  let fields := (tblGet st₂.boards (sessionId, userKey username)).getD []
  { st₂ with
      boards := tblSet st₂.boards (sessionId, userKey username)
        (tblSet (tblSet fields "username" username) slot value) }

/-- Model of `fsDeletePick`: a merge-set of `{[slot]: FieldValue.delete()}`,
which removes the field and creates the document when absent. -/
def fsDeletePick (st : FsState) (sessionId username slot : String) : FsState :=
  match tblGet st.boards (sessionId, userKey username) with
  | some fields =>
      { st with
          boards := tblSet st.boards (sessionId, userKey username) (tblDel fields slot) }
  | none => { st with boards := st.boards ++ [((sessionId, userKey username), [])] }

/-- Model of `fsClearBoard`: delete every field of the board document except
`username`. -/
def fsClearBoard (st : FsState) (sessionId username : String) : FsState :=
  match tblGet st.boards (sessionId, userKey username) with
  | none => st
  | some fields =>
      { st with
          boards := tblSet st.boards (sessionId, userKey username)
            (fields.filter (fun p => decide (p.1 = "username"))) }

/-- Model of `fsBuildState`: the owner field is initialised to `null` and
never assigned; users come from the `users` subcollection
(`filter(Boolean)` drops empty names) sorted case-insensitively; each board
document first resets `userSongs[uname]` to `{}` and then copies every
field except `username`. -/
def fsBuildState (st : FsState) (sessionId : String) : SessionState :=
  { owner := none
    users :=
      (sortWith leCI
        (((st.users.filter (fun p => decide (p.1.1 = sessionId))).map Prod.snd).filter
          (fun u => decide (u ≠ "")))).map (fun u => ⟨none, u⟩)
    userSongs :=
      (st.boards.filter (fun p => decide (p.1.1 = sessionId))).foldl
        (fun songs doc =>
          let uname :=
            match tblGet doc.2 "username" with
            | some s => if s = "" then doc.1.2 else s
            | none => doc.1.2
          (doc.2.filter (fun f => decide (f.1 ≠ "username"))).foldl
            (fun songs₂ f => addSong songs₂ uname f.1 f.2) (tblSet songs uname []))
        [] }

/-- The storage port record `api`, bound at boot to the memory or the
Firestore implementations. -/
structure Api (σ : Type) where
  ensureSession : σ → String → σ
  ensureUser : σ → String → String → σ
  upsertPick : σ → String → String → String → String → σ
  deletePick : σ → String → String → String → σ
  clearBoard : σ → String → String → σ
  buildState : σ → String → SessionState

def memApi : Api MemState :=
  { ensureSession := memEnsureSession
    ensureUser := memEnsureUser
    upsertPick := memUpsertPick
    deletePick := memDeletePick
    clearBoard := memClearBoard
    buildState := memBuildState }

def fsApi : Api FsState :=
  { ensureSession := fsEnsureSession
    ensureUser := fsEnsureUser
    upsertPick := fsUpsertPick
    deletePick := fsDeletePick
    clearBoard := fsClearBoard
    buildState := fsBuildState }

/-- Entry of `socketMap`, recorded at join time. -/
structure Who where
  sessionId : String
  username : String
deriving DecidableEq, Repr

/-- Inbound socket payload.  Handlers destructure only the fields they use;
in particular `set-song`, `delete-song` and `clear-all` never read
`username`. -/
structure Payload where
  sessionId : String
  slot : String
  value : String
  username : String
deriving DecidableEq, Repr

/-- Result of the `join` handler: final store, final `socketMap`, the
`joined` acknowledgement, the room broadcast and the `error` emission. -/
structure JoinOut (σ : Type) where
  state : σ
  sockMap : List (String × Who)
  joined : Option String
  broadcast : Option SessionState
  errMsg : Option String
deriving Repr

/-- Result of a mutation handler: final store, the room broadcast and the
`error` emission. -/
structure MutOut (σ : Type) where
  state : σ
  broadcast : Option SessionState
  errMsg : Option String
deriving Repr

/-- Session id a mutation handler acts on:
`who.sessionId || decodeURIComponent(String(sessionId || "")).trim()`. -/
def cleanIdOf (who : Who) (p : Payload) : String :=
  if who.sessionId = "" then strTrim p.sessionId else who.sessionId

/-- Model of the `join` handler of `src/server.js`. -/
def join {σ : Type} (api : Api σ) (sm : List (String × Who)) (sock : String)
    (p : Payload) (st : σ) : JoinOut σ :=
  let cleanId := strTrim p.sessionId
  let cleanUser := strTrim p.username
  if cleanId = "" ∨ cleanUser = "" then
    ⟨st, sm, none, none, some "Invalid session or username"⟩
  else
    let st₂ := api.ensureUser (api.ensureSession st cleanId) cleanId cleanUser
    let sm₂ := tblSet sm sock ⟨cleanId, cleanUser⟩
    ⟨st₂, sm₂, some cleanId, some (api.buildState st₂ cleanId), none⟩

/-- Model of the `set-song` handler of `src/server.js`: the caller identity
comes from `socketMap`; an empty (trimmed) value deletes the pick. -/
def setSong {σ : Type} (api : Api σ) (sm : List (String × Who)) (sock : String)
    (p : Payload) (st : σ) : MutOut σ :=
  match tblGet sm sock with
  | none => ⟨st, none, some "Not joined."⟩
  | some who =>
      let cleanId := cleanIdOf who p
      let caller := who.username
      let cleanSlot := strTrim p.slot
      let cleanValue := strTrim p.value
      if cleanSlot ∈ SONG_SLOTS then
        if cleanValue = "" then
          let st₂ := api.deletePick st cleanId caller cleanSlot
          ⟨st₂, some (api.buildState st₂ cleanId), none⟩
        else
          let st₂ := api.upsertPick st cleanId caller cleanSlot cleanValue
          ⟨st₂, some (api.buildState st₂ cleanId), none⟩
      else ⟨st, none, some "Invalid slot."⟩

/-- Model of the `delete-song` handler of `src/server.js`. -/
def delSong {σ : Type} (api : Api σ) (sm : List (String × Who)) (sock : String)
    (p : Payload) (st : σ) : MutOut σ :=
  match tblGet sm sock with
  | none => ⟨st, none, some "Not joined."⟩
  | some who =>
      let cleanId := cleanIdOf who p
      let st₂ := api.deletePick st cleanId who.username (strTrim p.slot)
      ⟨st₂, some (api.buildState st₂ cleanId), none⟩

/-- Model of the `clear-all` handler of `src/server.js`: it clears only the
caller's own board via `api.clearBoard(cleanId, caller)`. -/
def clearAll {σ : Type} (api : Api σ) (sm : List (String × Who)) (sock : String)
    (p : Payload) (st : σ) : MutOut σ :=
  match tblGet sm sock with
  | none => ⟨st, none, some "Not joined."⟩
  | some who =>
      let cleanId := cleanIdOf who p
      let st₂ := api.clearBoard st cleanId who.username
      ⟨st₂, some (api.buildState st₂ cleanId), none⟩

/-- One inbound socket event for the mem-backed server. -/
inductive Ev
  | join (sock : String) (p : Payload)
  | setSong (sock : String) (p : Payload)
  | delSong (sock : String) (p : Payload)
  | clearAll (sock : String) (p : Payload)

/-- Step of the mem-backed server, threading the store and `socketMap`. -/
def memStep : MemState × List (String × Who) → Ev → MemState × List (String × Who)
  | (st, sm), Ev.join sock p =>
      let r := join memApi sm sock p st
      (r.state, r.sockMap)
  | (st, sm), Ev.setSong sock p => ((setSong memApi sm sock p st).state, sm)
  | (st, sm), Ev.delSong sock p => ((delSong memApi sm sock p st).state, sm)
  | (st, sm), Ev.clearAll sock p => ((clearAll memApi sm sock p st).state, sm)

/-- States of the mem-backed server reachable from boot. -/
def memRun (evs : List Ev) : MemState × List (String × Who) :=
  evs.foldl memStep (memInit, [])

end ServerJs

/-! ## The Postgres server (`src/unnamed/part_000`) -/

namespace Part000

/-- Slot catalog of part_000 (eight slots, no "Song 6"). -/
def SONG_SLOTS : List String :=
  ["Opener", "Song 2", "Song 3", "Song 4", "Song 5", "Encore", "Cover", "Bustout"]

/-- The Postgres database: `sessions(id, owner)`,
`session_users(session_id, username)` and
`user_picks(session_id, username, slot, value)`. -/
structure PgDb where
  sessions : List (String × Option String)
  sessionUsers : List (String × String)
  userPicks : List ((String × String × String) × String)
deriving DecidableEq, Repr

def pgInit : PgDb := ⟨[], [], []⟩

/-- Model of `ensureSession`: insert the session row if absent, then run
`UPDATE sessions SET owner = COALESCE(owner, $1)` when `maybeOwner` is
truthy. -/
def ensureSession (db : PgDb) (sessionId : String) (maybeOwner : Option String) : PgDb :=
  let ss :=
    if (tblGet db.sessions sessionId).isSome then db.sessions
    else db.sessions ++ [(sessionId, none)]
  let ss₂ :=
    match maybeOwner with
    | some o =>
        if o = "" then ss
        else
          tblUpd ss sessionId
            (fun cur => match cur with | some x => some x | none => some o)
    | none => ss
  { db with sessions := ss₂ }

/-- Model of `ensureUser`: `INSERT ... ON CONFLICT DO NOTHING`. -/
def ensureUser (db : PgDb) (sessionId username : String) : PgDb :=
  { db with sessionUsers := setAdd db.sessionUsers (sessionId, username) }

/-- Model of `buildSessionState`: the persisted owner (`|| null` turns a
missing row or empty owner into `null`), the users ordered byte-wise by
`COLLATE "C"`, and the boards rebuilt from the pick rows. -/
def buildSessionState (db : PgDb) (sessionId : String) : SessionState :=
  { owner :=
      match tblGet db.sessions sessionId with
      | some (some o) => if o = "" then none else some o
      | _ => none
    users :=
      (sortWith leC
        ((db.sessionUsers.filter (fun r => decide (r.1 = sessionId))).map Prod.snd)).map
        (fun u => ⟨none, u⟩)
    userSongs :=
      songsOfRows []
        ((db.userPicks.filter (fun r => decide (r.1.1 = sessionId))).map
          (fun r => (r.1.2.1, r.1.2.2, r.2))) }

/-- Result of part_000's `join` handler. -/
structure JoinOut where
  state : PgDb
  joined : Option String
  broadcast : Option SessionState
  errMsg : Option String
deriving DecidableEq, Repr

/-- Result of a part_000 mutation handler. -/
structure MutOut where
  state : PgDb
  broadcast : Option SessionState
  errMsg : Option String
deriving DecidableEq, Repr

/-- Model of part_000's `join` handler: `ensureSession(cleanId, username)`
assigns the owner to the first committed joiner. -/
def join (db : PgDb) (sessionId username : String) : JoinOut :=
  let cleanId := strTrim sessionId
  if cleanId = "" ∨ username = "" then
    ⟨db, none, none, some "Invalid session or username"⟩
  else
    let db₂ := ensureUser (ensureSession db cleanId (some username)) cleanId username
    ⟨db₂, some cleanId, some (buildSessionState db₂ cleanId), none⟩

/-- Model of part_000's `set-song` handler: an invalid slot returns silently
with no emission at all; otherwise the pick named by the payload `username`
is upserted with no authorization check and the rebuilt state broadcast. -/
def setSong (db : PgDb) (sessionId slot value username : String) : MutOut :=
  let cleanId := strTrim sessionId
  if slot ∈ SONG_SLOTS then
    let db₂ := ensureUser (ensureSession db cleanId none) cleanId username
    let db₃ :=
      { db₂ with userPicks := tblSet db₂.userPicks (cleanId, username, slot) value }
    ⟨db₃, some (buildSessionState db₃ cleanId), none⟩
  else ⟨db, none, none⟩

/-- Model of part_000's `delete-song` handler. -/
def delSong (db : PgDb) (sessionId slot username : String) : MutOut :=
  let cleanId := strTrim sessionId
  let db₂ :=
    { db with
        userPicks := db.userPicks.filter (fun r => decide (r.1 ≠ (cleanId, username, slot))) }
  ⟨db₂, some (buildSessionState db₂ cleanId), none⟩

/-- Model of part_000's `delete-user-board` handler: delete the target's
picks and membership (the owner check is absent in the source). -/
def delUserBoard (db : PgDb) (sessionId target : String) : MutOut :=
  let cleanId := strTrim sessionId
  let db₂ :=
    { db with
        userPicks :=
          db.userPicks.filter (fun r => decide (¬(r.1.1 = cleanId ∧ r.1.2.1 = target)))
        sessionUsers := db.sessionUsers.filter (fun r => decide (r ≠ (cleanId, target))) }
  ⟨db₂, some (buildSessionState db₂ cleanId), none⟩

/-- Model of part_000's `clear-all` handler: delete every pick of the
session, keep the users. -/
def clearAll (db : PgDb) (sessionId : String) : MutOut :=
  let cleanId := strTrim sessionId
  let db₂ := { db with userPicks := db.userPicks.filter (fun r => decide (r.1.1 ≠ cleanId)) }
  ⟨db₂, some (buildSessionState db₂ cleanId), none⟩

/-- One inbound socket event of part_000. -/
inductive Op
  | join (sessionId username : String)
  | setSong (sessionId slot value username : String)
  | delSong (sessionId slot username : String)
  | delUserBoard (sessionId target : String)
  | clearAll (sessionId : String)

def step (db : PgDb) : Op → PgDb
  | Op.join sid u => (join db sid u).state
  | Op.setSong sid slot v u => (setSong db sid slot v u).state
  | Op.delSong sid slot u => (delSong db sid slot u).state
  | Op.delUserBoard sid t => (delUserBoard db sid t).state
  | Op.clearAll sid => (clearAll db sid).state

def run (db : PgDb) (ops : List Op) : PgDb := ops.foldl step db

/-- Owner column of the session row, `NULL` when the row is absent. -/
def ownerOf (db : PgDb) (sessionId : String) : Option String :=
  (tblGet db.sessions sessionId).getD none

end Part000

/-! ## The Postgres/in-memory server (`src/unnamed/part_001`) -/

namespace Part001

/-- Slot catalog of part_001 (eight slots). -/
def SONG_SLOTS : List String :=
  ["Opener", "Song 2", "Song 3", "Song 4", "Song 5", "Encore", "Cover", "Bustout"]

/-- part_001's in-memory fallback functions are textually identical to those
of `src/server.js`, so they are shared. -/
def memEnsureSession : ServerJs.MemState → String → ServerJs.MemState :=
  ServerJs.memEnsureSession

def memEnsureUser : ServerJs.MemState → String → String → ServerJs.MemState :=
  ServerJs.memEnsureUser

def memUpsertPick : ServerJs.MemState → String → String → String → String →
    ServerJs.MemState :=
  ServerJs.memUpsertPick

def memDeletePick : ServerJs.MemState → String → String → String → ServerJs.MemState :=
  ServerJs.memDeletePick

def memClearBoard : ServerJs.MemState → String → String → ServerJs.MemState :=
  ServerJs.memClearBoard

def memBuildState : ServerJs.MemState → String → SessionState :=
  ServerJs.memBuildState

/-- Lookup of the stored value of one pick in the in-memory store. -/
def memLookupPick (m : ServerJs.MemState) (id username slot : String) : Option String :=
  (tblGet m.sessions id).bind (fun s => tblGet s.picks (mkKey username slot))

/-- Rows of part_001's `user_picks` table. -/
def PgPicks : Type := List ((String × String × String) × String)

/-- Model of `pgUpsertPick`: `INSERT ... ON CONFLICT ... DO UPDATE`. -/
def pgUpsertPick (db : PgPicks) (sessionId username slot value : String) : PgPicks :=
  tblSet db (sessionId, username, slot) value

/-- Model of `pgDeletePick`: `DELETE FROM user_picks WHERE session_id = $1
AND username = $2 AND slot = $3`. -/
def pgDeletePick (db : PgPicks) (sessionId username slot : String) : PgPicks :=
  db.filter (fun r => decide (r.1 ≠ (sessionId, username, slot)))

/-- Lookup of the stored value of one pick row. -/
def pgLookupPick (db : PgPicks) (sessionId username slot : String) : Option String :=
  tblGet db (sessionId, username, slot)

end Part001

/-! ## The sqlite server (`src/unnamed/part_002`) -/

namespace Part002

/-- Slot catalog of part_002 (eight slots). -/
def SONG_SLOTS : List String :=
  ["Opener", "Song 2", "Song 3", "Song 4", "Song 5", "Encore", "Cover", "Bustout"]

/-- In-memory session object: `{ owner, users, userSongs }`. -/
structure Sess where
  owner : Option String
  users : List UserEntry
  userSongs : List (String × List (String × String))
deriving DecidableEq, Repr

/-- Server state: the in-memory `sessions` object plus the sqlite
`user_picks` table. -/
structure St where
  sessions : List (String × Sess)
  userPicks : List ((String × String × String) × String)
deriving DecidableEq, Repr

def freshSess : Sess := ⟨none, [], []⟩

def stInit : St := ⟨[], []⟩

/-- Model of `existingUser.socketId = socket.id`: replace the socketId of
the first user entry carrying the given name. -/
def setSock : List UserEntry → String → String → List UserEntry
  | [], _, _ => []
  | e :: rest, name, sock =>
      if e.username = name then { e with socketId := some sock } :: rest
      else e :: setSock rest name sock

/-- Model of `users.find(u => u.username === name)`. -/
def findByName (users : List UserEntry) (name : String) : Option UserEntry :=
  users.find? (fun e => e.username == name)

/-- Model of `users.find(u => u.socketId === socket.id)`. -/
def findBySock (users : List UserEntry) (sock : String) : Option UserEntry :=
  users.find? (fun e => e.socketId == some sock)

/-- Result of part_002's `join` handler. -/
structure JoinOut where
  state : St
  joined : Option String
  broadcast : Option Sess
  errMsg : Option String
deriving DecidableEq, Repr

/-- Result of a part_002 mutation handler. -/
structure MutOut where
  state : St
  broadcast : Option Sess
  errMsg : Option String
deriving DecidableEq, Repr

/-- Model of part_002's `join` handler (the body of the `db.all` callback):
the in-memory `userSongs` and `users` are rebuilt from the stored pick rows,
this socket's entry is inserted or rebound, the user's board is ensured,
`if (!session.owner) session.owner = username` makes the first joiner owner,
and the in-memory session object is broadcast. -/
def join (st : St) (sock sessionId username : String) : JoinOut :=
  let cleanId := strTrim sessionId
  if cleanId = "" ∨ username = "" then
    ⟨st, none, none, some "Invalid session or username"⟩
  else
    let rows := st.userPicks.filter (fun r => decide (r.1.1 = cleanId))
    let sess₀ := (tblGet st.sessions cleanId).getD freshSess
    let songs := songsOfRows [] (rows.map (fun r => (r.1.2.1, r.1.2.2, r.2)))
    let names := rows.foldl (fun ns r => setAdd ns r.1.2.1) []
    let users₁ := names.map (fun n => UserEntry.mk none n)
    let users₂ :=
      match findByName users₁ username with
      | some _ => setSock users₁ username sock
      | none => users₁ ++ [⟨some sock, username⟩]
    let songs₂ := if (tblGet songs username).isSome then songs else tblSet songs username []
    let owner₂ :=
      match sess₀.owner with
      | some o => if o = "" then some username else some o
      | none => some username
    let sess₂ : Sess := ⟨owner₂, users₂, songs₂⟩
    ⟨⟨tblSet st.sessions cleanId sess₂, st.userPicks⟩, some cleanId, some sess₂, none⟩

/-- Model of part_002's `set-song` handler: a missing session returns
silently, the caller is resolved through its socketId, a caller naming
another user's board is rejected before any write, the slot is validated,
then the pick is upserted in sqlite, the in-memory session object is
locally mutated and that local object is broadcast. -/
def setSong (st : St) (sock sessionId slot value username : String) : MutOut :=
  let cleanId := strTrim sessionId
  match tblGet st.sessions cleanId with
  | none => ⟨st, none, none⟩
  | some sess =>
      match findBySock sess.users sock with
      | none => ⟨st, none, some "Not in session."⟩
      | some caller =>
          if caller.username ≠ username then
            ⟨st, none, some "You can only edit your own board."⟩
          else if slot ∉ SONG_SLOTS then ⟨st, none, some "Invalid slot."⟩
          else
            let picks₂ := tblSet st.userPicks (cleanId, username, slot) value
            let sess₂ :=
              { sess with userSongs := addSong sess.userSongs username slot value }
            ⟨⟨tblSet st.sessions cleanId sess₂, picks₂⟩, some sess₂, none⟩

/-- Comparison definition for the refinement claim, following the spec's
words (§4.2 `readState`, §4.6): the authoritative snapshot re-read from the
durable store after the write — the owner as persisted (part_002's sqlite
schema persists no owner), the participants derived from the stored rows
with no live socket handles, sorted case-insensitively, and the boards
rebuilt from the stored rows. -/
def specReadState (st : St) (sessionId : String) : Sess :=
  let rows := st.userPicks.filter (fun r => decide (r.1.1 = sessionId))
  { owner := none
    users :=
      (sortWith leCI (rows.foldl (fun ns r => setAdd ns r.1.2.1) [])).map
        (fun n => UserEntry.mk none n)
    userSongs := songsOfRows [] (rows.map (fun r => (r.1.2.1, r.1.2.2, r.2))) }

end Part002

/-! ## The Postgres server (`src/unnamed/part_003`) -/

namespace Part003

/-- Slot catalog of part_003 (eight slots). -/
def SONG_SLOTS : List String :=
  ["Opener", "Song 2", "Song 3", "Song 4", "Song 5", "Encore", "Cover", "Bustout"]

/-- part_003's data layer is textually identical to part_000's, so the
definitions are shared. -/
def ensureSession : Part000.PgDb → String → Option String → Part000.PgDb :=
  Part000.ensureSession

def ensureUser : Part000.PgDb → String → String → Part000.PgDb :=
  Part000.ensureUser

/-- Model of part_003's `buildSessionState` (identical to part_000's,
including `ORDER BY username COLLATE "C"`). -/
def buildSessionState : Part000.PgDb → String → SessionState :=
  Part000.buildSessionState

/-- Model of part_003's `join` handler (identical to part_000's). -/
def join : Part000.PgDb → String → String → Part000.JoinOut :=
  Part000.join

/-- Model of part_003's `set-song` handler (identical to part_000's): the
raw payload value is upserted unconditionally — no trimming, no
empty-value-to-delete routing. -/
def setSong : Part000.PgDb → String → String → String → String → Part000.MutOut :=
  Part000.setSong

end Part003

/-! ## Observation predicates used by the theorems -/

/-- Well-formedness of one session of the in-memory store (vacuous when the
session does not exist). -/
def WfSession (m : ServerJs.MemState) (id : String) : Prop :=
  ∀ s, tblGet m.sessions id = some s → WfPicks s.picks

/-- Every stored pick value of the in-memory store is a nonempty string. -/
def PicksNonempty (m : ServerJs.MemState) : Prop :=
  ∀ e ∈ m.sessions, ∀ kv ∈ e.2.picks, kv.2 ≠ ""

/-- Every pick row of the part_000 database names a catalog slot. -/
def Part000PicksValid (db : Part000.PgDb) : Prop :=
  ∀ r ∈ db.userPicks, r.1.2.2 ∈ Part000.SONG_SLOTS

/-! ## Library lemmas about the shared primitives -/

theorem tblGet_tblSet_same {α β : Type} [DecidableEq α] (l : List (α × β)) (k : α) (v : β) :
    tblGet (tblSet l k v) k = some v := by
  induction l with
  | nil => simp [tblGet, tblSet]
  | cons p rest ih =>
      by_cases h : k = p.1
      · simp [tblSet, h, tblGet]
      · simp [tblSet, h, tblGet, ih]

theorem tblGet_tblSet_diff {α β : Type} [DecidableEq α] (l : List (α × β)) {k key : α}
    (v : β) (h : key ≠ k) : tblGet (tblSet l k v) key = tblGet l key := by
  induction l with
  | nil => simp [tblGet, tblSet, h]
  | cons p rest ih =>
      by_cases h₂ : k = p.1
      · subst h₂
        simp [tblSet, tblGet, h]
      · by_cases h₃ : key = p.1
        · simp [tblSet, h₂, tblGet, h₃]
        · simp [tblSet, h₂, tblGet, h₃, ih]

theorem tblSet_eq_self {α β : Type} [DecidableEq α] {l : List (α × β)} {k : α} {v : β}
    (h : tblGet l k = some v) : tblSet l k v = l := by
  induction l with
  | nil => simp [tblGet] at h
  | cons p rest ih =>
      obtain ⟨k₂, v₂⟩ := p
      by_cases h₂ : k = k₂
      · subst h₂
        simp [tblGet] at h
        simp [tblSet, h]
      · simp [tblGet, h₂] at h
        simp [tblSet, h₂, ih h]

theorem tblGet_eq_none_of_not_mem {α β : Type} [DecidableEq α] {l : List (α × β)} {k : α}
    (h : k ∉ l.map Prod.fst) : tblGet l k = none := by
  induction l with
  | nil => rfl
  | cons p rest ih =>
      simp only [List.map_cons, List.mem_cons] at h
      push_neg at h
      simp [tblGet, h.1, ih h.2]

theorem not_mem_of_tblGet_eq_none {α β : Type} [DecidableEq α] {l : List (α × β)} {k : α}
    (h : tblGet l k = none) : ∀ p ∈ l, p.1 ≠ k := by
  induction l with
  | nil => simp
  | cons p rest ih =>
      by_cases h₂ : k = p.1
      · simp [tblGet, h₂] at h
      · simp only [tblGet, h₂, if_false] at h
        intro q hq
        rcases List.mem_cons.mp hq with rfl | hq₂
        · exact fun hEq => h₂ hEq.symm
        · exact ih h q hq₂

theorem tblDel_eq_self {α β : Type} [DecidableEq α] {l : List (α × β)} {k : α}
    (h : tblGet l k = none) : tblDel l k = l := by
  refine List.filter_eq_self.mpr ?_
  intro p hp
  simpa using not_mem_of_tblGet_eq_none h p hp

theorem tblGet_mem {α β : Type} [DecidableEq α] {l : List (α × β)} {k : α} {v : β}
    (h : tblGet l k = some v) : (k, v) ∈ l := by
  induction l with
  | nil => simp [tblGet] at h
  | cons p rest ih =>
      by_cases h₂ : k = p.1
      · subst h₂
        simp [tblGet] at h
        subst h
        exact List.mem_cons_self _ _
      · simp only [tblGet, h₂, if_false] at h
        exact List.mem_cons_of_mem _ (ih h)

theorem mem_tblSet {α β : Type} [DecidableEq α] {l : List (α × β)} {k : α} {v : β}
    {q : α × β} (h : q ∈ tblSet l k v) : q = (k, v) ∨ q ∈ l := by
  induction l with
  | nil => simpa [tblSet] using h
  | cons p rest ih =>
      by_cases h₂ : k = p.1
      · simp only [tblSet, h₂, if_pos rfl] at h
        rcases List.mem_cons.mp h with rfl | h₃
        · exact Or.inl (by simp [h₂])
        · exact Or.inr (List.mem_cons_of_mem _ h₃)
      · simp only [tblSet, h₂, if_false] at h
        rcases List.mem_cons.mp h with rfl | h₃
        · exact Or.inr (List.mem_cons_self _ _)
        · rcases ih h₃ with h₄ | h₄
          · exact Or.inl h₄
          · exact Or.inr (List.mem_cons_of_mem _ h₄)

theorem keys_tblSet_subset {α β : Type} [DecidableEq α] (l : List (α × β)) (k : α) (v : β) :
    ∀ x ∈ (tblSet l k v).map Prod.fst, x = k ∨ x ∈ l.map Prod.fst := by
  intro x hx
  rcases List.mem_map.mp hx with ⟨q, hq, rfl⟩
  rcases mem_tblSet hq with rfl | h
  · exact Or.inl rfl
  · exact Or.inr (List.mem_map_of_mem _ h)

theorem keys_nodup_tblSet {α β : Type} [DecidableEq α] {l : List (α × β)} (k : α) (v : β)
    (h : (l.map Prod.fst).Nodup) : ((tblSet l k v).map Prod.fst).Nodup := by
  induction l with
  | nil => simp [tblSet]
  | cons p rest ih =>
      obtain ⟨k₂, v₂⟩ := p
      simp only [List.map_cons, List.nodup_cons] at h
      by_cases h₂ : k = k₂
      · subst h₂
        simp only [tblSet, if_pos rfl, if_true, eq_self_iff_true, List.map_cons,
          List.nodup_cons]
        exact ⟨h.1, h.2⟩
      · simp only [tblSet, if_neg h₂, List.map_cons, List.nodup_cons]
        refine ⟨?_, ih h.2⟩
        intro hmem
        rcases keys_tblSet_subset rest k v _ hmem with h₃ | h₃
        · exact h₂ h₃.symm
        · exact h.1 h₃

theorem splitPipeCh_ne_nil (l : List Char) : splitPipeCh l ≠ [] := by
  cases l with
  | nil => simp [splitPipeCh]
  | cons c cs =>
      by_cases h : c = '|'
      · simp [splitPipeCh, h]
      · simp only [splitPipeCh, h, if_false]
        cases splitPipeCh cs with
        | nil => simp
        | cons a t => simp

theorem splitPipeCh_of_pipeFree :
    ∀ (u : List Char), (∀ c ∈ u, c ≠ '|') → splitPipeCh u = [u] := by
  intro u
  induction u with
  | nil => intro _; rfl
  | cons c cs ih =>
      intro h
      have hc : c ≠ '|' := h c (List.mem_cons_self _ _)
      have hrest := ih (fun x hx => h x (List.mem_cons_of_mem _ hx))
      simp [splitPipeCh, hc, hrest]

theorem splitPipeCh_append_pipe :
    ∀ (u r : List Char), (∀ c ∈ u, c ≠ '|') →
      splitPipeCh (u ++ '|' :: r) = u :: splitPipeCh r := by
  intro u
  induction u with
  | nil => intro r _; simp [splitPipeCh]
  | cons c cs ih =>
      intro r h
      have hc : c ≠ '|' := h c (List.mem_cons_self _ _)
      have hrest := ih r (fun x hx => h x (List.mem_cons_of_mem _ hx))
      simp [splitPipeCh, hc, hrest]

theorem pipeFree_iff {s : String} : pipeFree s = true ↔ ∀ c ∈ s.data, c ≠ '|' := by
  simp [pipeFree, List.all_eq_true]

theorem data_mkKey (u s : String) : (mkKey u s).data = u.data ++ '|' :: s.data := by
  show (u ++ "|" ++ s).data = _
  rw [String.data_append, String.data_append, List.append_assoc]
  rfl

theorem splitPipe_mkKey {u s : String} (hu : pipeFree u = true) (hs : pipeFree s = true) :
    splitPipe (mkKey u s) = [u, s] := by
  unfold splitPipe
  rw [data_mkKey, splitPipeCh_append_pipe u.data s.data (pipeFree_iff.mp hu),
    splitPipeCh_of_pipeFree s.data (pipeFree_iff.mp hs)]
  rfl

theorem mkKey_inj {u₁ s₁ u₂ s₂ : String} (hu₁ : pipeFree u₁ = true) (hs₁ : pipeFree s₁ = true)
    (hu₂ : pipeFree u₂ = true) (hs₂ : pipeFree s₂ = true)
    (h : mkKey u₁ s₁ = mkKey u₂ s₂) : u₁ = u₂ ∧ s₁ = s₂ := by
  have h₂ : splitPipe (mkKey u₁ s₁) = splitPipe (mkKey u₂ s₂) := by rw [h]
  rw [splitPipe_mkKey hu₁ hs₁, splitPipe_mkKey hu₂ hs₂] at h₂
  simp only [List.cons.injEq, and_true] at h₂
  exact h₂

theorem listLeBy_total (key : Char → Nat) :
    ∀ as bs, listLeBy key as bs = true ∨ listLeBy key bs as = true := by
  intro as
  induction as with
  | nil => intro bs; exact Or.inl rfl
  | cons a as ih =>
      intro bs
      cases bs with
      | nil => exact Or.inr rfl
      | cons b bs =>
          by_cases h : key a = key b
          · rcases ih bs with h₂ | h₂
            · exact Or.inl (by simp [listLeBy, h, h₂])
            · exact Or.inr (by simp [listLeBy, h.symm, h₂])
          · rcases Nat.lt_or_ge (key a) (key b) with h₂ | h₂
            · exact Or.inl (by simp [listLeBy, h, h₂])
            · have h₃ : key b < key a := lt_of_le_of_ne h₂ (Ne.symm h)
              exact Or.inr (by simp [listLeBy, Ne.symm h, h₃])

theorem listLeBy_trans (key : Char → Nat) :
    ∀ as bs cs, listLeBy key as bs = true → listLeBy key bs cs = true →
      listLeBy key as cs = true := by
  intro as
  induction as with
  | nil => intro bs cs _ _; rfl
  | cons a as ih =>
      intro bs cs h₁ h₂
      cases bs with
      | nil => simp [listLeBy] at h₁
      | cons b bs =>
          cases cs with
          | nil => simp [listLeBy] at h₂
          | cons c cs =>
              by_cases hab : key a = key b
              · by_cases hbc : key b = key c
                · have hac : key a = key c := hab.trans hbc
                  simp only [listLeBy, hab, if_pos rfl] at h₁
                  simp only [listLeBy, hbc, if_pos rfl] at h₂
                  simp [listLeBy, hac, ih bs cs h₁ h₂]
                · simp only [listLeBy, if_neg hbc, decide_eq_true_eq] at h₂
                  have hac : key a < key c := hab ▸ h₂
                  simp [listLeBy, Nat.ne_of_lt hac, hac]
              · simp only [listLeBy, if_neg hab, decide_eq_true_eq] at h₁
                by_cases hbc : key b = key c
                · have hac : key a < key c := hbc ▸ h₁
                  simp [listLeBy, Nat.ne_of_lt hac, hac]
                · simp only [listLeBy, if_neg hbc, decide_eq_true_eq] at h₂
                  have hac : key a < key c := Nat.lt_trans h₁ h₂
                  simp [listLeBy, Nat.ne_of_lt hac, hac]

theorem mem_insertAsc (le : String → String → Bool) (a x : String) :
    ∀ l, x ∈ insertAsc le a l ↔ x = a ∨ x ∈ l := by
  intro l
  induction l with
  | nil => simp [insertAsc]
  | cons b bs ih =>
      by_cases h : le a b = true
      · simp [insertAsc, h, List.mem_cons]
      · rw [Bool.not_eq_true] at h
        simp only [insertAsc, h, Bool.false_eq_true, if_false, List.mem_cons, ih]
        tauto

theorem pairwise_insertAsc {le : String → String → Bool}
    (tot : ∀ x y, le x y = true ∨ le y x = true)
    (tr : ∀ x y z, le x y = true → le y z = true → le x z = true) (a : String) :
    ∀ {l}, l.Pairwise (fun x y => le x y = true) →
      (insertAsc le a l).Pairwise (fun x y => le x y = true) := by
  intro l
  induction l with
  | nil => intro _; simp [insertAsc]
  | cons b bs ih =>
      intro h
      rcases List.pairwise_cons.mp h with ⟨hb, hbs⟩
      by_cases hab : le a b = true
      · show ((if le a b then a :: b :: bs else b :: insertAsc le a bs)).Pairwise _
        rw [if_pos hab]
        refine List.pairwise_cons.mpr ⟨?_, h⟩
        intro y hy
        rcases List.mem_cons.mp hy with rfl | hy₂
        · exact hab
        · exact tr a b y hab (hb y hy₂)
      · have hba : le b a = true := (tot a b).resolve_left hab
        show ((if le a b then a :: b :: bs else b :: insertAsc le a bs)).Pairwise _
        rw [if_neg hab]
        refine List.pairwise_cons.mpr ⟨?_, ih hbs⟩
        intro y hy
        rcases (mem_insertAsc le a y bs).mp hy with rfl | hy₂
        · exact hba
        · exact hb y hy₂

theorem sortWith_pairwise {le : String → String → Bool}
    (tot : ∀ x y, le x y = true ∨ le y x = true)
    (tr : ∀ x y z, le x y = true → le y z = true → le x z = true) :
    ∀ l, (sortWith le l).Pairwise (fun x y => le x y = true) := by
  intro l
  induction l with
  | nil => simp [sortWith]
  | cons a as ih => exact pairwise_insertAsc tot tr a ih

theorem leC_total : ∀ a b, leC a b = true ∨ leC b a = true :=
  fun a b => listLeBy_total Char.toNat a.data b.data

theorem leC_trans : ∀ a b c, leC a b = true → leC b c = true → leC a c = true :=
  fun a b c => listLeBy_trans Char.toNat a.data b.data c.data

theorem leCI_total : ∀ a b, leCI a b = true ∨ leCI b a = true :=
  fun a b => listLeBy_total ciKey a.data b.data

theorem leCI_trans : ∀ a b c, leCI a b = true → leCI b c = true → leCI a c = true :=
  fun a b c => listLeBy_trans ciKey a.data b.data c.data

theorem boardGet_addSong_same (songs : List (String × List (String × String)))
    (u s v : String) : boardGet (addSong songs u s v) u s = some v := by
  unfold boardGet addSong
  rw [tblGet_tblSet_same]
  simp [tblGet_tblSet_same]

theorem boardGet_addSong_diff (songs : List (String × List (String × String)))
    {u s u₂ s₂ : String} (v : String) (h : (u₂, s₂) ≠ (u, s)) :
    boardGet (addSong songs u s v) u₂ s₂ = boardGet songs u₂ s₂ := by
  unfold boardGet addSong
  by_cases hu : u₂ = u
  · subst hu
    have hs : s₂ ≠ s := fun hEq => h (by rw [hEq])
    rw [tblGet_tblSet_same]
    cases hb : tblGet songs u₂ with
    | none => simp [hb, tblGet_tblSet_diff _ _ hs, tblGet, hs]
    | some b => simp [hb, tblGet_tblSet_diff _ _ hs]
  · rw [tblGet_tblSet_diff _ _ hu]

theorem songsOfRows_boardGet (u s : String) :
    ∀ (rows : List (String × String × String)) (acc : List (String × List (String × String))),
      (rows.map (fun r => (r.1, r.2.1))).Nodup →
      boardGet (songsOfRows acc rows) u s =
        (match tblGet (rows.map (fun r => ((r.1, r.2.1), r.2.2))) (u, s) with
         | some v => some v
         | none => boardGet acc u s) := by
  intro rows
  induction rows with
  | nil => intro acc _; rfl
  | cons r rest ih =>
      intro acc hnd
      simp only [List.map_cons, List.nodup_cons] at hnd
      by_cases hk : (u, s) = (r.1, r.2.1)
      · have hu : r.1 = u := by injection hk.symm
        have hs : r.2.1 = s := by injection hk.symm
        have hnone : tblGet (rest.map (fun r => ((r.1, r.2.1), r.2.2))) (u, s) = none := by
          apply tblGet_eq_none_of_not_mem
          intro hmem
          apply hnd.1
          rw [← hk]
          have : (rest.map (fun r => ((r.1, r.2.1), r.2.2))).map Prod.fst =
              rest.map (fun r => (r.1, r.2.1)) := by
            rw [List.map_map]; rfl
          rw [this] at hmem
          exact hmem
        show boardGet (songsOfRows (addSong acc r.1 r.2.1 r.2.2) rest) u s = _
        rw [ih _ hnd.2, hnone]
        simp only [tblGet, if_pos hk]
        rw [hu, hs, boardGet_addSong_same]
      · show boardGet (songsOfRows (addSong acc r.1 r.2.1 r.2.2) rest) u s = _
        rw [ih _ hnd.2]
        simp only [tblGet, if_neg hk]
        cases tblGet (rest.map (fun r => ((r.1, r.2.1), r.2.2))) (u, s) with
        | none =>
            simp only []
            exact boardGet_addSong_diff acc _ hk
        | some v => rfl

theorem mem_songsOfRows :
    ∀ (rows : List (String × String × String)) (acc : List (String × List (String × String)))
      (p : String × List (String × String)), p ∈ songsOfRows acc rows →
      ∀ q ∈ p.2, (∃ p₀ ∈ acc, q ∈ p₀.2) ∨ ∃ r ∈ rows, r.2.1 = q.1 ∧ r.2.2 = q.2 := by
  intro rows
  induction rows with
  | nil =>
      intro acc p hp q hq
      exact Or.inl ⟨p, hp, hq⟩
  | cons r rest ih =>
      intro acc p hp q hq
      rcases ih (addSong acc r.1 r.2.1 r.2.2) p hp q hq with ⟨p₀, hp₀, hq₀⟩ | ⟨r₀, hr₀, hq₀⟩
      · rcases mem_tblSet hp₀ with rfl | hp₁
        · rcases mem_tblSet hq₀ with rfl | hq₁
          · exact Or.inr ⟨r, List.mem_cons_self _ _, rfl, rfl⟩
          · cases hb : tblGet acc r.1 with
            | none => rw [hb] at hq₁; simp at hq₁
            | some b =>
                rw [hb] at hq₁
                exact Or.inl ⟨(r.1, b), tblGet_mem hb, hq₁⟩
        · exact Or.inl ⟨p₀, hp₁, hq₀⟩
      · exact Or.inr ⟨r₀, List.mem_cons_of_mem _ hr₀, hq₀⟩

/-! ## Further lemmas about the shared primitives -/

theorem tblSet_tblSet_same {α β : Type} [DecidableEq α] (l : List (α × β)) (k : α) (v w : β) :
    tblSet (tblSet l k v) k w = tblSet l k w := by
  induction l with
  | nil => simp [tblSet]
  | cons p rest ih =>
      obtain ⟨k₂, v₂⟩ := p
      by_cases h : k = k₂
      · subst h
        simp [tblSet]
      · simp [tblSet, h, ih]

theorem filter_idem {α : Type} (p : α → Bool) (l : List α) :
    (l.filter p).filter p = l.filter p := by
  rw [List.filter_filter]
  simp

theorem tblGet_tblDel_same {α β : Type} [DecidableEq α] (l : List (α × β)) (k : α) :
    tblGet (tblDel l k) k = none := by
  apply tblGet_eq_none_of_not_mem
  intro hmem
  rcases List.mem_map.mp hmem with ⟨q, hq, rfl⟩
  rcases List.mem_filter.mp hq with ⟨_, hq₂⟩
  exact (of_decide_eq_true hq₂) rfl

theorem tblGet_append_of_some {α β : Type} [DecidableEq α] {l : List (α × β)} {k : α}
    {v : β} (l₂ : List (α × β)) (h : tblGet l k = some v) :
    tblGet (l ++ l₂) k = some v := by
  induction l with
  | nil => simp [tblGet] at h
  | cons p rest ih =>
      obtain ⟨k₂, v₂⟩ := p
      rw [List.cons_append]
      by_cases h₂ : k = k₂
      · simp only [tblGet, if_pos h₂] at h ⊢
        exact h
      · simp only [tblGet, if_neg h₂] at h ⊢
        exact ih h

theorem tblGet_append_of_none {α β : Type} [DecidableEq α] {l : List (α × β)} {k : α}
    (l₂ : List (α × β)) (h : tblGet l k = none) :
    tblGet (l ++ l₂) k = tblGet l₂ k := by
  induction l with
  | nil => rfl
  | cons p rest ih =>
      obtain ⟨k₂, v₂⟩ := p
      rw [List.cons_append]
      by_cases h₂ : k = k₂
      · simp only [tblGet, if_pos h₂] at h
        exact absurd h (by simp)
      · simp only [tblGet, if_neg h₂] at h ⊢
        exact ih h

theorem tblGet_tblUpd_same {α β : Type} [DecidableEq α] (l : List (α × β)) (k : α)
    (f : β → β) : tblGet (tblUpd l k f) k = (tblGet l k).map f := by
  induction l with
  | nil => rfl
  | cons p rest ih =>
      obtain ⟨k₂, v₂⟩ := p
      show tblGet ((if k₂ = k then (k₂, f v₂) else (k₂, v₂)) :: tblUpd rest k f) k = _
      by_cases h : k₂ = k
      · rw [if_pos h]
        subst h
        simp [tblGet]
      · rw [if_neg h]
        have h₂ : k ≠ k₂ := fun hEq => h hEq.symm
        simp only [tblGet, if_neg h₂]
        exact ih

theorem tblGet_tblUpd_diff {α β : Type} [DecidableEq α] (l : List (α × β)) {k key : α}
    (f : β → β) (h : key ≠ k) : tblGet (tblUpd l k f) key = tblGet l key := by
  induction l with
  | nil => rfl
  | cons p rest ih =>
      obtain ⟨k₂, v₂⟩ := p
      show tblGet ((if k₂ = k then (k₂, f v₂) else (k₂, v₂)) :: tblUpd rest k f) key = _
      by_cases h₂ : k₂ = k
      · rw [if_pos h₂]
        subst h₂
        simp only [tblGet, if_neg h]
        exact ih
      · rw [if_neg h₂]
        by_cases h₃ : key = k₂
        · simp [tblGet, h₃]
        · simp only [tblGet, if_neg h₃]
          exact ih

theorem keyUser_mkKey {u s : String} (hu : pipeFree u = true) (hs : pipeFree s = true) :
    keyUser (mkKey u s) = u := by
  simp [keyUser, splitPipe_mkKey hu hs]

theorem keySlot_mkKey {u s : String} (hu : pipeFree u = true) (hs : pipeFree s = true) :
    keySlot (mkKey u s) = s := by
  simp [keySlot, splitPipe_mkKey hu hs]

theorem tblGet_parsed {u slot : String} (hu : pipeFree u = true)
    (hslot : pipeFree slot = true) :
    ∀ picks : List (String × String),
      (∀ p ∈ picks, pipeFree (keyUser p.1) = true ∧ pipeFree (keySlot p.1) = true ∧
        p.1 = mkKey (keyUser p.1) (keySlot p.1)) →
      tblGet (picks.map (fun kv => ((keyUser kv.1, keySlot kv.1), kv.2))) (u, slot) =
        tblGet picks (mkKey u slot) := by
  intro picks
  induction picks with
  | nil => intro _; rfl
  | cons kv rest ih =>
      intro h
      obtain ⟨hku, hks, hkey⟩ := h kv (List.mem_cons_self _ _)
      have hrest := fun p hp => h p (List.mem_cons_of_mem _ hp)
      by_cases heq : (u, slot) = (keyUser kv.1, keySlot kv.1)
      · have h₂ : mkKey u slot = kv.1 := by
          rw [Prod.mk.injEq] at heq
          rw [heq.1, heq.2, ← hkey]
        simp [List.map_cons, tblGet, heq, h₂]
      · have h₂ : ¬(mkKey u slot = kv.1) := by
          intro hk
          apply heq
          rw [← hk, keyUser_mkKey hu hslot, keySlot_mkKey hu hslot]
        simp only [List.map_cons, tblGet, if_neg heq, if_neg h₂]
        exact ih hrest

theorem memBuildState_userSongs (m : ServerJs.MemState) (id : String) :
    (ServerJs.memBuildState m id).userSongs =
      songsOfRows []
        ((((tblGet m.sessions id).getD ⟨[], []⟩).picks).map
          (fun kv => (keyUser kv.1, keySlot kv.1, kv.2))) := by
  unfold ServerJs.memBuildState songsOfRows
  rw [List.foldl_map]

theorem parsed_nodup {picks : List (String × String)} (hwf : WfPicks picks) :
    (((picks.map (fun kv => (keyUser kv.1, keySlot kv.1, kv.2))).map
      (fun r => (r.1, r.2.1)))).Nodup := by
  rw [List.map_map]
  refine List.Nodup.map_on ?_ (List.Nodup.of_map _ hwf.1)
  intro x hx y hy hxy
  obtain ⟨hxu, hxs, hxk⟩ := hwf.2 x hx
  obtain ⟨hyu, hys, hyk⟩ := hwf.2 y hy
  apply List.inj_on_of_nodup_map hwf.1 hx hy
  show x.1 = y.1
  have h₁ : keyUser x.1 = keyUser y.1 := congrArg Prod.fst hxy
  have h₂ : keySlot x.1 = keySlot y.1 := congrArg Prod.snd hxy
  rw [hxk, hyk, h₁, h₂]

theorem memBuildState_boardGet {m : ServerJs.MemState} {id u slot : String}
    {s : ServerJs.MemSession} (hs : tblGet m.sessions id = some s) (hwf : WfPicks s.picks)
    (hu : pipeFree u = true) (hslot : pipeFree slot = true) :
    boardGet (ServerJs.memBuildState m id).userSongs u slot =
      tblGet s.picks (mkKey u slot) := by
  rw [memBuildState_userSongs, hs]
  simp only [Option.getD_some]
  rw [songsOfRows_boardGet u slot _ [] (parsed_nodup hwf)]
  have h₂ : ((s.picks.map (fun kv => (keyUser kv.1, keySlot kv.1, kv.2))).map
      (fun r => ((r.1, r.2.1), r.2.2))) =
      s.picks.map (fun kv => ((keyUser kv.1, keySlot kv.1), kv.2)) := by
    rw [List.map_map]
    rfl
  rw [h₂, tblGet_parsed hu hslot s.picks hwf.2]
  cases htg : tblGet s.picks (mkKey u slot) with
  | none => simp [boardGet, tblGet]
  | some v => rfl

theorem boardGet_value_mem {m : ServerJs.MemState} {id u slot v : String}
    (h : boardGet (ServerJs.memBuildState m id).userSongs u slot = some v) :
    ∃ kv ∈ (((tblGet m.sessions id).getD ⟨[], []⟩).picks), kv.2 = v := by
  rw [memBuildState_userSongs] at h
  unfold boardGet at h
  cases hsongs : tblGet (songsOfRows []
      ((((tblGet m.sessions id).getD ⟨[], []⟩).picks).map
        (fun kv => (keyUser kv.1, keySlot kv.1, kv.2)))) u with
  | none => rw [hsongs] at h; simp at h
  | some b =>
      rw [hsongs] at h
      simp only [Option.some_bind] at h
      have hb := tblGet_mem hsongs
      have hv := tblGet_mem h
      rcases mem_songsOfRows _ [] _ hb (slot, v) hv with ⟨p₀, hp₀, _⟩ | ⟨r, hr, _, hrv⟩
      · simp at hp₀
      · rcases List.mem_map.mp hr with ⟨kv, hkv, rfl⟩
        exact ⟨kv, hkv, hrv⟩

/-! ## Plumbing lemmas for the server.js in-memory store -/

theorem memEnsureSession_some {m : ServerJs.MemState} {id : String}
    {s : ServerJs.MemSession} (hs : tblGet m.sessions id = some s) :
    ServerJs.memEnsureSession m id = m := by
  unfold ServerJs.memEnsureSession
  rw [hs]
  rfl

theorem memEnsureSession_none {m : ServerJs.MemState} {id : String}
    (hs : tblGet m.sessions id = none) :
    ServerJs.memEnsureSession m id = ⟨m.sessions ++ [(id, ⟨[], []⟩)]⟩ := by
  unfold ServerJs.memEnsureSession
  rw [hs]
  rfl

theorem memEnsureSession_get (m : ServerJs.MemState) (id : String) :
    ∃ s, tblGet (ServerJs.memEnsureSession m id).sessions id = some s ∧
      s.picks = ((tblGet m.sessions id).getD ⟨[], []⟩).picks := by
  cases hs : tblGet m.sessions id with
  | some s =>
      refine ⟨s, ?_, rfl⟩
      rw [memEnsureSession_some hs]
      exact hs
  | none =>
      refine ⟨⟨[], []⟩, ?_, rfl⟩
      rw [memEnsureSession_none hs]
      show tblGet (m.sessions ++ [(id, ⟨[], []⟩)]) id = _
      rw [tblGet_append_of_none _ hs]
      simp [tblGet]

theorem memEnsureUser_get (m : ServerJs.MemState) (id u : String) :
    ∃ s, tblGet (ServerJs.memEnsureUser m id u).sessions id = some s ∧
      s.picks = ((tblGet m.sessions id).getD ⟨[], []⟩).picks := by
  obtain ⟨s₀, hget, hpicks⟩ := memEnsureSession_get m id
  refine ⟨{ s₀ with users := setAdd s₀.users u }, ?_, hpicks⟩
  simp only [ServerJs.memEnsureUser, hget]
  exact tblGet_tblSet_same _ _ _

theorem memUpsertPick_get (m : ServerJs.MemState) (id u slot v : String) :
    ∃ s, tblGet (ServerJs.memUpsertPick m id u slot v).sessions id = some s ∧
      s.picks = tblSet (((tblGet m.sessions id).getD ⟨[], []⟩).picks) (mkKey u slot) v := by
  obtain ⟨s₁, hget, hpicks⟩ := memEnsureUser_get m id u
  refine ⟨{ s₁ with picks := tblSet s₁.picks (mkKey u slot) v }, ?_, ?_⟩
  · simp only [ServerJs.memUpsertPick, hget]
    exact tblGet_tblSet_same _ _ _
  · show tblSet s₁.picks (mkKey u slot) v = _
    rw [hpicks]

theorem memDeletePick_get {m : ServerJs.MemState} {id : String} {s : ServerJs.MemSession}
    (hs : tblGet m.sessions id = some s) (u slot : String) :
    tblGet (ServerJs.memDeletePick m id u slot).sessions id =
      some { s with picks := tblDel s.picks (mkKey u slot) } := by
  simp only [ServerJs.memDeletePick, hs]
  exact tblGet_tblSet_same _ _ _

theorem memDeletePick_absent {m : ServerJs.MemState} {id : String}
    (hs : tblGet m.sessions id = none) (u slot : String) :
    ServerJs.memDeletePick m id u slot = m := by
  simp only [ServerJs.memDeletePick, hs]

theorem wfPicks_nil : WfPicks [] := ⟨List.nodup_nil, by simp⟩

theorem wfPicks_tblSet {picks : List (String × String)} (hwf : WfPicks picks)
    {u slot : String} (hu : pipeFree u = true) (hslot : pipeFree slot = true) (v : String) :
    WfPicks (tblSet picks (mkKey u slot) v) := by
  refine ⟨keys_nodup_tblSet _ _ hwf.1, ?_⟩
  intro p hp
  rcases mem_tblSet hp with rfl | hp₂
  · refine ⟨?_, ?_, ?_⟩ <;>
      simp [keyUser_mkKey hu hslot, keySlot_mkKey hu hslot, hu, hslot]
  · exact hwf.2 p hp₂

theorem wfPicks_filter {picks : List (String × String)} (hwf : WfPicks picks)
    (f : String × String → Bool) : WfPicks (picks.filter f) := by
  constructor
  · exact List.Nodup.sublist (List.Sublist.map _ (List.filter_sublist _)) hwf.1
  · intro p hp
    exact hwf.2 p (List.mem_filter.mp hp).1

theorem pn_ensureSession {m : ServerJs.MemState} (h : PicksNonempty m) (id : String) :
    PicksNonempty (ServerJs.memEnsureSession m id) := by
  cases hs : tblGet m.sessions id with
  | some s => rw [memEnsureSession_some hs]; exact h
  | none =>
      rw [memEnsureSession_none hs]
      intro e he kv hkv
      rcases List.mem_append.mp he with he₂ | he₂
      · exact h e he₂ kv hkv
      · simp only [List.mem_singleton] at he₂
        subst he₂
        simp at hkv

theorem pn_ensureUser {m : ServerJs.MemState} (h : PicksNonempty m) (id u : String) :
    PicksNonempty (ServerJs.memEnsureUser m id u) := by
  have h₂ := pn_ensureSession h id
  unfold ServerJs.memEnsureUser
  cases hget : tblGet (ServerJs.memEnsureSession m id).sessions id with
  | none =>
      simp only [hget]
      exact h₂
  | some s =>
      simp only [hget]
      intro e he kv hkv
      rcases mem_tblSet he with rfl | he₂
      · exact h₂ _ (tblGet_mem hget) kv hkv
      · exact h₂ e he₂ kv hkv

theorem pn_upsert {m : ServerJs.MemState} (h : PicksNonempty m) (id u slot : String)
    {v : String} (hv : v ≠ "") : PicksNonempty (ServerJs.memUpsertPick m id u slot v) := by
  have h₂ := pn_ensureUser h id u
  unfold ServerJs.memUpsertPick
  cases hget : tblGet (ServerJs.memEnsureUser m id u).sessions id with
  | none =>
      simp only [hget]
      exact h₂
  | some s =>
      simp only [hget]
      intro e he kv hkv
      rcases mem_tblSet he with rfl | he₂
      · rcases mem_tblSet hkv with rfl | hkv₂
        · exact hv
        · exact h₂ _ (tblGet_mem hget) kv hkv₂
      · exact h₂ e he₂ kv hkv

theorem pn_delete {m : ServerJs.MemState} (h : PicksNonempty m) (id u slot : String) :
    PicksNonempty (ServerJs.memDeletePick m id u slot) := by
  unfold ServerJs.memDeletePick
  cases hget : tblGet m.sessions id with
  | none =>
      simp only [hget]
      exact h
  | some s =>
      simp only [hget]
      intro e he kv hkv
      rcases mem_tblSet he with rfl | he₂
      · exact h _ (tblGet_mem hget) kv (List.mem_filter.mp hkv).1
      · exact h e he₂ kv hkv

theorem pn_clear {m : ServerJs.MemState} (h : PicksNonempty m) (id u : String) :
    PicksNonempty (ServerJs.memClearBoard m id u) := by
  unfold ServerJs.memClearBoard
  cases hget : tblGet m.sessions id with
  | none =>
      simp only [hget]
      exact h
  | some s =>
      simp only [hget]
      intro e he kv hkv
      rcases mem_tblSet he with rfl | he₂
      · exact h _ (tblGet_mem hget) kv (List.mem_filter.mp hkv).1
      · exact h e he₂ kv hkv

theorem pn_memStep {st : ServerJs.MemState} {sm : List (String × ServerJs.Who)}
    (h : PicksNonempty st) (ev : ServerJs.Ev) :
    PicksNonempty (ServerJs.memStep (st, sm) ev).1 := by
  cases ev with
  | join sock p =>
      show PicksNonempty (ServerJs.join ServerJs.memApi sm sock p st).state
      unfold ServerJs.join
      by_cases hval : strTrim p.sessionId = "" ∨ strTrim p.username = ""
      · simp only [if_pos hval]
        exact h
      · simp only [if_neg hval]
        exact pn_ensureUser (pn_ensureSession h _) _ _
  | setSong sock p =>
      show PicksNonempty (ServerJs.setSong ServerJs.memApi sm sock p st).state
      unfold ServerJs.setSong
      cases hw : tblGet sm sock with
      | none => simp only [hw]; exact h
      | some who =>
          simp only [hw]
          by_cases hslot : strTrim p.slot ∈ ServerJs.SONG_SLOTS
          · simp only [if_pos hslot]
            by_cases hv : strTrim p.value = ""
            · simp only [if_pos hv]
              exact pn_delete h _ _ _
            · simp only [if_neg hv]
              exact pn_upsert h _ _ _ hv
          · simp only [if_neg hslot]
            exact h
  | delSong sock p =>
      show PicksNonempty (ServerJs.delSong ServerJs.memApi sm sock p st).state
      unfold ServerJs.delSong
      cases hw : tblGet sm sock with
      | none => simp only [hw]; exact h
      | some who =>
          simp only [hw]
          exact pn_delete h _ _ _
  | clearAll sock p =>
      show PicksNonempty (ServerJs.clearAll ServerJs.memApi sm sock p st).state
      unfold ServerJs.clearAll
      cases hw : tblGet sm sock with
      | none => simp only [hw]; exact h
      | some who =>
          simp only [hw]
          exact pn_clear h _ _

theorem pn_memRun (evs : List ServerJs.Ev) : PicksNonempty (ServerJs.memRun evs).1 := by
  suffices h : ∀ (l : List ServerJs.Ev) (st : ServerJs.MemState)
      (sm : List (String × ServerJs.Who)), PicksNonempty st →
      PicksNonempty (l.foldl ServerJs.memStep (st, sm)).1 by
    refine h evs ServerJs.memInit [] ?_
    intro e he kv hkv
    simp [ServerJs.memInit] at he
  intro l
  induction l with
  | nil => intro st sm h; exact h
  | cons ev rest ih =>
      intro st sm h
      rw [List.foldl_cons]
      have h₂ := @pn_memStep st sm h ev
      cases hstep : ServerJs.memStep (st, sm) ev with
      | mk st₂ sm₂ =>
          rw [hstep] at h₂
          exact ih st₂ sm₂ h₂

/-! ## Owner and catalog lemmas for the part_000 Postgres server -/

theorem part000_owner_preserved {db : Part000.PgDb} {sid : String} {o : String}
    (h : tblGet db.sessions sid = some (some o)) (sid₂ : String) (mo : Option String) :
    tblGet (Part000.ensureSession db sid₂ mo).sessions sid = some (some o) := by
  simp only [Part000.ensureSession]
  have hss : tblGet (if (tblGet db.sessions sid₂).isSome then db.sessions
      else db.sessions ++ [(sid₂, none)]) sid = some (some o) := by
    by_cases h₂ : (tblGet db.sessions sid₂).isSome
    · rw [if_pos h₂]; exact h
    · rw [if_neg h₂]; exact tblGet_append_of_some _ h
  cases mo with
  | none => exact hss
  | some o₂ =>
      by_cases h₃ : o₂ = ""
      · simp only [if_pos h₃]
        exact hss
      · simp only [if_neg h₃]
        by_cases h₄ : sid = sid₂
        · subst h₄
          rw [tblGet_tblUpd_same, hss]
          rfl
        · rw [tblGet_tblUpd_diff _ _ h₄]
          exact hss

theorem part000_owner_assign {db : Part000.PgDb} {sid : String}
    (h : Part000.ownerOf db sid = none) {u : String} (hu : u ≠ "") :
    tblGet (Part000.ensureSession db sid (some u)).sessions sid = some (some u) := by
  have hss : tblGet (if (tblGet db.sessions sid).isSome then db.sessions
      else db.sessions ++ [(sid, none)]) sid = some none := by
    cases htg : tblGet db.sessions sid with
    | none =>
        simp only [Option.isSome_none, Bool.false_eq_true, if_false]
        rw [tblGet_append_of_none _ htg]
        simp [tblGet]
    | some x =>
        have hx : x = none := by
          unfold Part000.ownerOf at h
          rw [htg] at h
          simpa using h
        subst hx
        simp only [Option.isSome_some, if_true]
        exact htg
  simp only [Part000.ensureSession, if_neg hu]
  rw [tblGet_tblUpd_same, hss]
  rfl

theorem part000_step_sessions {db : Part000.PgDb} {sid : String} {o : String}
    (h : tblGet db.sessions sid = some (some o)) (op : Part000.Op) :
    tblGet (Part000.step db op).sessions sid = some (some o) := by
  cases op with
  | join sid₂ u =>
      show tblGet (Part000.join db sid₂ u).state.sessions sid = _
      by_cases hval : strTrim sid₂ = "" ∨ u = ""
      · have h₂ : (Part000.join db sid₂ u).state = db := by
          simp [Part000.join, if_pos hval]
        rw [h₂]
        exact h
      · have h₂ : (Part000.join db sid₂ u).state.sessions =
            (Part000.ensureSession db (strTrim sid₂) (some u)).sessions := by
          simp [Part000.join, Part000.ensureUser, if_neg hval]
        rw [h₂]
        exact part000_owner_preserved h _ _
  | setSong sid₂ slot v u =>
      show tblGet (Part000.setSong db sid₂ slot v u).state.sessions sid = _
      by_cases hslot : slot ∈ Part000.SONG_SLOTS
      · have h₂ : (Part000.setSong db sid₂ slot v u).state.sessions =
            (Part000.ensureSession db (strTrim sid₂) none).sessions := by
          simp [Part000.setSong, Part000.ensureUser, if_pos hslot]
        rw [h₂]
        exact part000_owner_preserved h _ _
      · have h₂ : (Part000.setSong db sid₂ slot v u).state = db := by
          simp [Part000.setSong, if_neg hslot]
        rw [h₂]
        exact h
  | delSong sid₂ slot u => exact h
  | delUserBoard sid₂ t => exact h
  | clearAll sid₂ => exact h

theorem part000_run_sessions {db : Part000.PgDb} {sid : String} {o : String}
    (h : tblGet db.sessions sid = some (some o)) (ops : List Part000.Op) :
    tblGet (Part000.run db ops).sessions sid = some (some o) := by
  induction ops generalizing db with
  | nil => exact h
  | cons op rest ih =>
      rw [Part000.run, List.foldl_cons]
      exact ih (part000_step_sessions h op)

theorem part000_buildState_owner {db : Part000.PgDb} {sid : String} {o : String}
    (h : tblGet db.sessions sid = some (some o)) (ho : o ≠ "") :
    (Part000.buildSessionState db sid).owner = some o := by
  unfold Part000.buildSessionState
  simp only [h, if_neg ho]

theorem part000_step_picksValid {db : Part000.PgDb} (h : Part000PicksValid db)
    (op : Part000.Op) : Part000PicksValid (Part000.step db op) := by
  cases op with
  | join sid u =>
      show Part000PicksValid (Part000.join db sid u).state
      unfold Part000.join
      by_cases hval : strTrim sid = "" ∨ u = ""
      · simp only [if_pos hval]
        exact h
      · simp only [if_neg hval]
        intro r hr
        exact h r hr
  | setSong sid slot v u =>
      show Part000PicksValid (Part000.setSong db sid slot v u).state
      unfold Part000.setSong
      by_cases hslot : slot ∈ Part000.SONG_SLOTS
      · simp only [if_pos hslot]
        intro r hr
        rcases mem_tblSet hr with rfl | hr₂
        · exact hslot
        · exact h r hr₂
      · simp only [if_neg hslot]
        exact h
  | delSong sid slot u =>
      intro r hr
      exact h r (List.mem_filter.mp hr).1
  | delUserBoard sid t =>
      intro r hr
      exact h r (List.mem_filter.mp hr).1
  | clearAll sid =>
      intro r hr
      exact h r (List.mem_filter.mp hr).1

theorem part000_run_picksValid {db : Part000.PgDb} (h : Part000PicksValid db)
    (ops : List Part000.Op) : Part000PicksValid (Part000.run db ops) := by
  induction ops generalizing db with
  | nil => exact h
  | cons op rest ih =>
      rw [Part000.run, List.foldl_cons]
      exact ih (part000_step_picksValid h op)

theorem part000_buildState_slots {db : Part000.PgDb} (h : Part000PicksValid db)
    (sid : String) :
    ∀ p ∈ (Part000.buildSessionState db sid).userSongs, ∀ q ∈ p.2,
      q.1 ∈ Part000.SONG_SLOTS := by
  intro p hp q hq
  have hp₂ : p ∈ songsOfRows []
      ((db.userPicks.filter (fun r => decide (r.1.1 = sid))).map
        (fun r => (r.1.2.1, r.1.2.2, r.2))) := hp
  rcases mem_songsOfRows _ [] _ hp₂ q hq with ⟨p₀, hp₀, _⟩ | ⟨r, hr, hq₁, _⟩
  · simp at hp₀
  · rcases List.mem_map.mp hr with ⟨row, hrow, rfl⟩
    have h₂ := h row (List.mem_filter.mp hrow).1
    rw [← hq₁]
    exact h₂

/-! ## Round-trip helper lemmas for the in-memory store -/

theorem mem_upsert_roundtrip (m : ServerJs.MemState) (id u slot v : String)
    (hu : pipeFree u = true) (hslot : pipeFree slot = true) (hws : WfSession m id) :
    boardGet
        (ServerJs.memBuildState (ServerJs.memUpsertPick m id u slot v) id).userSongs
        u slot = some v := by
  obtain ⟨s₂, hget, hpicks⟩ := memUpsertPick_get m id u slot v
  have hbase : WfPicks (((tblGet m.sessions id).getD ⟨[], []⟩).picks) := by
    cases hs : tblGet m.sessions id with
    | none => exact wfPicks_nil
    | some s => exact hws s hs
  have hwf₂ : WfPicks s₂.picks := by
    rw [hpicks]
    exact wfPicks_tblSet hbase hu hslot v
  rw [memBuildState_boardGet hget hwf₂ hu hslot, hpicks]
  exact tblGet_tblSet_same _ _ _

theorem mem_delete_roundtrip (m : ServerJs.MemState) (id u slot : String)
    (hu : pipeFree u = true) (hslot : pipeFree slot = true) (hws : WfSession m id) :
    boardGet
        (ServerJs.memBuildState (ServerJs.memDeletePick m id u slot) id).userSongs
        u slot = none := by
  cases hs : tblGet m.sessions id with
  | none =>
      rw [memDeletePick_absent hs]
      rw [memBuildState_userSongs, hs]
      rfl
  | some s =>
      have hget := memDeletePick_get hs u slot
      have hwf₂ : WfPicks (tblDel s.picks (mkKey u slot)) :=
        wfPicks_filter (hws s hs) _
      rw [memBuildState_boardGet hget hwf₂ hu hslot]
      exact tblGet_tblDel_same _ _

/-! ## Claim theorems -/

/-- C8: `deletePick` is idempotent — deleting the same (session, participant,
slot) twice yields exactly the state of deleting it once — and deleting an
absent pick is a no-op success, in both the in-memory and the Postgres
backend of part_001. -/
theorem c8_deletePick_idempotent :
    (∀ m id u slot,
        Part001.memDeletePick (Part001.memDeletePick m id u slot) id u slot =
          Part001.memDeletePick m id u slot)
    ∧ (∀ db sid u slot,
        Part001.pgDeletePick (Part001.pgDeletePick db sid u slot) sid u slot =
          Part001.pgDeletePick db sid u slot)
    ∧ (∀ m id u slot, Part001.memLookupPick m id u slot = none →
        Part001.memDeletePick m id u slot = m)
    ∧ (∀ db sid u slot, Part001.pgLookupPick db sid u slot = none →
        Part001.pgDeletePick db sid u slot = db) := by
  refine ⟨?_, ?_, ?_, ?_⟩
  · intro m id u slot
    show ServerJs.memDeletePick (ServerJs.memDeletePick m id u slot) id u slot =
      ServerJs.memDeletePick m id u slot
    cases hs : tblGet m.sessions id with
    | none => rw [memDeletePick_absent hs, memDeletePick_absent hs]
    | some s =>
        generalize hm₂ : ServerJs.memDeletePick m id u slot = m₂
        have h₁ : tblGet m₂.sessions id =
            some { s with picks := tblDel s.picks (mkKey u slot) } := by
          rw [← hm₂]
          exact memDeletePick_get hs u slot
        have h₂ : tblDel (tblDel s.picks (mkKey u slot)) (mkKey u slot) =
            tblDel s.picks (mkKey u slot) := filter_idem _ _
        simp only [ServerJs.memDeletePick, h₁, h₂]
        rw [tblSet_eq_self h₁]
  · intro db sid u slot
    exact filter_idem _ _
  · intro m id u slot h
    show ServerJs.memDeletePick m id u slot = m
    cases hs : tblGet m.sessions id with
    | none => exact memDeletePick_absent hs u slot
    | some s =>
        have h₂ : tblGet s.picks (mkKey u slot) = none := by
          unfold Part001.memLookupPick at h
          rw [hs] at h
          simpa using h
        simp only [ServerJs.memDeletePick, hs]
        rw [tblDel_eq_self h₂]
        rw [show ({ s with picks := s.picks } : ServerJs.MemSession) = s from rfl]
        rw [tblSet_eq_self hs]
  · intro db sid u slot h
    exact tblDel_eq_self h

/-- C8 witness: applying the absent-pick clauses at a concrete store holding
one unrelated pick. -/
theorem c8_deletePick_idempotent_witness :
    Part001.memDeletePick
        (Part001.memUpsertPick ServerJs.memInit "s" "alice" "Encore" "X")
        "s" "alice" "Opener"
      = Part001.memUpsertPick ServerJs.memInit "s" "alice" "Encore" "X"
    ∧ Part001.pgDeletePick [(("s", "alice", "Encore"), "X")] "s" "alice" "Opener"
      = [(("s", "alice", "Encore"), "X")] :=
  ⟨c8_deletePick_idempotent.2.2.1 _ "s" "alice" "Opener" (by decide),
    c8_deletePick_idempotent.2.2.2 _ "s" "alice" "Opener" (by decide)⟩

/-- C9: in the Firestore-backed `server.js`, the target of every set-song,
delete-song and clear-all mutation is the username recorded for the socket
in `socketMap` at join time: the outcome is independent of any `username`
field in the mutation payload, a socket that has not joined receives
"Not joined." and causes no state change, and a successful join records
`(sessionId, username)` for the socket in `socketMap`. -/
theorem c9_socket_identity :
    (∀ (σ : Type) (api : ServerJs.Api σ) sm sock st sid slot v u₁ u₂,
        ServerJs.setSong api sm sock ⟨sid, slot, v, u₁⟩ st =
            ServerJs.setSong api sm sock ⟨sid, slot, v, u₂⟩ st
          ∧ ServerJs.delSong api sm sock ⟨sid, slot, v, u₁⟩ st =
            ServerJs.delSong api sm sock ⟨sid, slot, v, u₂⟩ st
          ∧ ServerJs.clearAll api sm sock ⟨sid, slot, v, u₁⟩ st =
            ServerJs.clearAll api sm sock ⟨sid, slot, v, u₂⟩ st)
    ∧ (∀ (σ : Type) (api : ServerJs.Api σ) sm sock p st, tblGet sm sock = none →
        ServerJs.setSong api sm sock p st = ⟨st, none, some "Not joined."⟩
          ∧ ServerJs.delSong api sm sock p st = ⟨st, none, some "Not joined."⟩
          ∧ ServerJs.clearAll api sm sock p st = ⟨st, none, some "Not joined."⟩)
    ∧ (∀ (σ : Type) (api : ServerJs.Api σ) sm sock p st who, tblGet sm sock = some who →
        (strTrim p.slot ∈ ServerJs.SONG_SLOTS →
          (ServerJs.setSong api sm sock p st).state =
            (if strTrim p.value = ""
             then api.deletePick st (ServerJs.cleanIdOf who p) who.username
               (strTrim p.slot)
             else api.upsertPick st (ServerJs.cleanIdOf who p) who.username
               (strTrim p.slot) (strTrim p.value)))
          ∧ (ServerJs.delSong api sm sock p st).state =
              api.deletePick st (ServerJs.cleanIdOf who p) who.username (strTrim p.slot)
          ∧ (ServerJs.clearAll api sm sock p st).state =
              api.clearBoard st (ServerJs.cleanIdOf who p) who.username)
    ∧ (∀ (σ : Type) (api : ServerJs.Api σ) sm sock p st,
        strTrim p.sessionId ≠ "" → strTrim p.username ≠ "" →
        tblGet (ServerJs.join api sm sock p st).sockMap sock =
          some ⟨strTrim p.sessionId, strTrim p.username⟩) := by
  refine ⟨?_, ?_, ?_, ?_⟩
  · intro σ api sm sock st sid slot v u₁ u₂
    exact ⟨rfl, rfl, rfl⟩
  · intro σ api sm sock p st h
    refine ⟨?_, ?_, ?_⟩ <;>
      simp [ServerJs.setSong, ServerJs.delSong, ServerJs.clearAll, h]
  · intro σ api sm sock p st who h
    refine ⟨?_, ?_, ?_⟩
    · intro hslot
      by_cases hv : strTrim p.value = ""
      · simp [ServerJs.setSong, h, hslot, hv]
      · simp [ServerJs.setSong, h, hslot, hv]
    · simp [ServerJs.delSong, h]
    · simp [ServerJs.clearAll, h]
  · intro σ api sm sock p st h₁ h₂
    have hval : ¬(strTrim p.sessionId = "" ∨ strTrim p.username = "") := by
      push_neg
      exact ⟨h₁, h₂⟩
    simp [ServerJs.join, hval, tblGet_tblSet_same]

/-- C9 witness: a non-joined socket is rejected, a joined socket writes to
its socketMap identity regardless of the payload username, and a join
records the socket identity. -/
theorem c9_socket_identity_witness :
    (ServerJs.setSong ServerJs.memApi [] "sockA" ⟨"s", "Opener", "X", "bob"⟩
        ServerJs.memInit = ⟨ServerJs.memInit, none, some "Not joined."⟩)
    ∧ ((ServerJs.setSong ServerJs.memApi [("sockA", ⟨"s", "alice"⟩)] "sockA"
          ⟨"ignored", "Opener", "X", "bob"⟩ ServerJs.memInit).state =
        ServerJs.memUpsertPick ServerJs.memInit "s" "alice" "Opener" "X")
    ∧ tblGet (ServerJs.join ServerJs.memApi [] "sockA" ⟨"s", "", "", "alice"⟩
        ServerJs.memInit).sockMap "sockA" = some ⟨"s", "alice"⟩ := by
  refine ⟨?_, ?_, ?_⟩
  · exact (c9_socket_identity.2.1 ServerJs.MemState ServerJs.memApi [] "sockA"
      ⟨"s", "Opener", "X", "bob"⟩ ServerJs.memInit rfl).1
  · have h := (c9_socket_identity.2.2.1 ServerJs.MemState ServerJs.memApi
        [("sockA", ⟨"s", "alice"⟩)] "sockA" ⟨"ignored", "Opener", "X", "bob"⟩
        ServerJs.memInit ⟨"s", "alice"⟩ (by decide)).1 (by decide)
    rw [h]
    decide
  · exact c9_socket_identity.2.2.2 ServerJs.MemState ServerJs.memApi [] "sockA"
      ⟨"s", "", "", "alice"⟩ ServerJs.memInit (by decide) (by decide)

/-- C1 counterexample: in the Firestore-backed `server.js`, after a
successful join of "alice" into the brand-new session "s" (no error, the
`joined` acknowledgement is emitted), `fsBuildState` reports the owner as
`null` — not as the first joiner — because the handler never assigns an
owner and `fsBuildState` hard-codes `owner: null`. -/
theorem c1_counterexample :
    (ServerJs.join ServerJs.fsApi [] "sockA" ⟨"s", "", "", "alice"⟩
        ServerJs.fsInit).errMsg = none
    ∧ (ServerJs.join ServerJs.fsApi [] "sockA" ⟨"s", "", "", "alice"⟩
        ServerJs.fsInit).joined = some "s"
    ∧ ¬((ServerJs.fsBuildState
        (ServerJs.join ServerJs.fsApi [] "sockA" ⟨"s", "", "", "alice"⟩
          ServerJs.fsInit).state "s").owner = some "alice")
    ∧ (ServerJs.fsBuildState
        (ServerJs.join ServerJs.fsApi [] "sockA" ⟨"s", "", "", "alice"⟩
          ServerJs.fsInit).state "s").owner = none := by
  decide

/-- C1 (amended): in the part_000 Postgres variant, the owner is the first
participant whose join is committed — the `COALESCE` update assigns it only
when unset, every later operation preserves it, and `buildSessionState`
after the first join (and any sequence of further operations) reports that
first joiner, never null; the Firestore-backed `server.js`, by contrast,
never assigns an owner and its `buildState` always reports null. -/
theorem c1_pg_owner_first_join :
    (∀ db sid u, Part000.ownerOf db (strTrim sid) = none → strTrim sid ≠ "" → u ≠ "" →
        Part000.ownerOf (Part000.join db sid u).state (strTrim sid) = some u
          ∧ (Part000.buildSessionState (Part000.join db sid u).state
              (strTrim sid)).owner = some u)
    ∧ (∀ db sid o, Part000.ownerOf db sid = some o →
        ∀ op, Part000.ownerOf (Part000.step db op) sid = some o)
    ∧ (∀ db sid u ops, Part000.ownerOf db (strTrim sid) = none → strTrim sid ≠ "" →
        u ≠ "" →
        (Part000.buildSessionState (Part000.run (Part000.join db sid u).state ops)
            (strTrim sid)).owner = some u) := by
  have hOwner : ∀ (db : Part000.PgDb) (sid o : String),
      Part000.ownerOf db sid = some o → tblGet db.sessions sid = some (some o) := by
    intro db sid o h
    unfold Part000.ownerOf at h
    cases htg : tblGet db.sessions sid with
    | none => rw [htg] at h; simp at h
    | some x =>
        rw [htg] at h
        simp only [Option.getD_some] at h
        rw [h]
  have hJoin : ∀ (db : Part000.PgDb) (sid u : String),
      Part000.ownerOf db (strTrim sid) = none → strTrim sid ≠ "" → u ≠ "" →
      tblGet (Part000.join db sid u).state.sessions (strTrim sid) = some (some u) := by
    intro db sid u hnone hsid hu
    have hval : ¬(strTrim sid = "" ∨ u = "") := by
      push_neg
      exact ⟨hsid, hu⟩
    have hstate : (Part000.join db sid u).state.sessions =
        (Part000.ensureSession db (strTrim sid) (some u)).sessions := by
      simp [Part000.join, Part000.ensureUser, if_neg hval]
    rw [hstate]
    exact part000_owner_assign hnone hu
  refine ⟨?_, ?_, ?_⟩
  · intro db sid u hnone hsid hu
    have hget := hJoin db sid u hnone hsid hu
    constructor
    · unfold Part000.ownerOf
      rw [hget]
      rfl
    · exact part000_buildState_owner hget hu
  · intro db sid o h op
    have hget := part000_step_sessions (hOwner db sid o h) op
    unfold Part000.ownerOf
    rw [hget]
    rfl
  · intro db sid u ops hnone hsid hu
    exact part000_buildState_owner
      (part000_run_sessions (hJoin db sid u hnone hsid hu) ops) hu

/-- C1 witness: "alice" joins the fresh session "s" first, then "Bob" joins,
sets a pick and the session is cleared; the reported owner stays "alice". -/
theorem c1_pg_owner_first_join_witness :
    Part000.ownerOf (Part000.join Part000.pgInit "s" "alice").state (strTrim "s")
        = some "alice"
    ∧ (Part000.buildSessionState
        (Part000.run (Part000.join Part000.pgInit "s" "alice").state
          [Part000.Op.join "s" "Bob", Part000.Op.setSong "s" "Opener" "X" "Bob",
            Part000.Op.clearAll "s"]) (strTrim "s")).owner = some "alice" :=
  ⟨(c1_pg_owner_first_join.1 Part000.pgInit "s" "alice" (by decide) (by decide)
      (by decide)).1,
    c1_pg_owner_first_join.2.2 Part000.pgInit "s" "alice"
      [Part000.Op.join "s" "Bob", Part000.Op.setSong "s" "Opener" "X" "Bob",
        Part000.Op.clearAll "s"] (by decide) (by decide) (by decide)⟩

/-- C2 counterexample: in the part_000 `set-song` handler there is no caller
identity at all — a request naming "bob" succeeds from any socket once
"alice" and "bob" are participants: the pick is written to bob's board, the
updated state is broadcast and no error is emitted, contradicting the
claimed rejection with no state change and no broadcast. -/
theorem c2_counterexample :
    (Part000.setSong
        (Part000.join (Part000.join Part000.pgInit "s" "alice").state "s" "bob").state
        "s" "Opener" "X" "bob").errMsg = none
    ∧ (Part000.setSong
        (Part000.join (Part000.join Part000.pgInit "s" "alice").state "s" "bob").state
        "s" "Opener" "X" "bob").broadcast ≠ none
    ∧ (Part000.setSong
        (Part000.join (Part000.join Part000.pgInit "s" "alice").state "s" "bob").state
        "s" "Opener" "X" "bob").state ≠
      (Part000.join (Part000.join Part000.pgInit "s" "alice").state "s" "bob").state
    ∧ tblGet (Part000.setSong
        (Part000.join (Part000.join Part000.pgInit "s" "alice").state "s" "bob").state
        "s" "Opener" "X" "bob").state.userPicks ("s", "bob", "Opener") = some "X" := by
  decide

/-- C2 (amended): the sqlite variant (part_002) enforces the authorization —
a caller resolved through its socket whose username differs from the payload
target is rejected with "You can only edit your own board.", the state is
unchanged and nothing is broadcast; the Postgres variants (part_000,
part_003) perform no authorization check, so the same request writes to the
target's board and broadcasts. -/
theorem c2_setSlot_authorization :
    ∀ (st : Part002.St) (sock sid slot v target : String) (sess : Part002.Sess)
      (caller : UserEntry),
      tblGet st.sessions (strTrim sid) = some sess →
      Part002.findBySock sess.users sock = some caller →
      caller.username ≠ target →
      Part002.setSong st sock sid slot v target =
        ⟨st, none, some "You can only edit your own board."⟩ := by
  intro st sock sid slot v target sess caller h₁ h₂ h₃
  simp [Part002.setSong, h₁, h₂, h₃]

/-- C2 witness: "bob" (socket "sockB") tries to set a slot on "alice"'s
board and is rejected with no state change and no broadcast. -/
theorem c2_setSlot_authorization_witness :
    Part002.setSong
        (Part002.join (Part002.join Part002.stInit "sockA" "s" "alice").state
          "sockB" "s" "bob").state "sockB" "s" "Opener" "X" "alice" =
      ⟨(Part002.join (Part002.join Part002.stInit "sockA" "s" "alice").state
          "sockB" "s" "bob").state, none,
        some "You can only edit your own board."⟩ :=
  c2_setSlot_authorization _ "sockB" "s" "Opener" "X" "alice"
    ⟨some "alice", [⟨some "sockB", "bob"⟩], [("bob", [])]⟩
    ⟨some "sockB", "bob"⟩ (by decide) (by decide) (by decide)

/-- C3 counterexample: in `server.js` the `clear-all` handler calls
`api.clearBoard(cleanId, caller)` — after "alice" and "bob" both join and
set picks, a clear-all from alice's socket succeeds yet bob's pick
survives, contradicting "removes all picks of every participant". -/
theorem c3_counterexample :
    (ServerJs.clearAll ServerJs.memApi
        (ServerJs.memRun [ServerJs.Ev.join "sockA" ⟨"s", "", "", "alice"⟩,
          ServerJs.Ev.join "sockB" ⟨"s", "", "", "bob"⟩,
          ServerJs.Ev.setSong "sockA" ⟨"s", "Opener", "X", ""⟩,
          ServerJs.Ev.setSong "sockB" ⟨"s", "Encore", "Y", ""⟩]).2 "sockA"
        ⟨"s", "", "", ""⟩
        (ServerJs.memRun [ServerJs.Ev.join "sockA" ⟨"s", "", "", "alice"⟩,
          ServerJs.Ev.join "sockB" ⟨"s", "", "", "bob"⟩,
          ServerJs.Ev.setSong "sockA" ⟨"s", "Opener", "X", ""⟩,
          ServerJs.Ev.setSong "sockB" ⟨"s", "Encore", "Y", ""⟩]).1).errMsg = none
    ∧ boardGet (ServerJs.memBuildState
        (ServerJs.clearAll ServerJs.memApi
          (ServerJs.memRun [ServerJs.Ev.join "sockA" ⟨"s", "", "", "alice"⟩,
            ServerJs.Ev.join "sockB" ⟨"s", "", "", "bob"⟩,
            ServerJs.Ev.setSong "sockA" ⟨"s", "Opener", "X", ""⟩,
            ServerJs.Ev.setSong "sockB" ⟨"s", "Encore", "Y", ""⟩]).2 "sockA"
          ⟨"s", "", "", ""⟩
          (ServerJs.memRun [ServerJs.Ev.join "sockA" ⟨"s", "", "", "alice"⟩,
            ServerJs.Ev.join "sockB" ⟨"s", "", "", "bob"⟩,
            ServerJs.Ev.setSong "sockA" ⟨"s", "Opener", "X", ""⟩,
            ServerJs.Ev.setSong "sockB" ⟨"s", "Encore", "Y", ""⟩]).1).state "s").userSongs
        "bob" "Encore" = some "Y"
    ∧ boardGet (ServerJs.memBuildState
        (ServerJs.clearAll ServerJs.memApi
          (ServerJs.memRun [ServerJs.Ev.join "sockA" ⟨"s", "", "", "alice"⟩,
            ServerJs.Ev.join "sockB" ⟨"s", "", "", "bob"⟩,
            ServerJs.Ev.setSong "sockA" ⟨"s", "Opener", "X", ""⟩,
            ServerJs.Ev.setSong "sockB" ⟨"s", "Encore", "Y", ""⟩]).2 "sockA"
          ⟨"s", "", "", ""⟩
          (ServerJs.memRun [ServerJs.Ev.join "sockA" ⟨"s", "", "", "alice"⟩,
            ServerJs.Ev.join "sockB" ⟨"s", "", "", "bob"⟩,
            ServerJs.Ev.setSong "sockA" ⟨"s", "Opener", "X", ""⟩,
            ServerJs.Ev.setSong "sockB" ⟨"s", "Encore", "Y", ""⟩]).1).state "s").userSongs
        "alice" "Opener" = none := by
  decide

/-- C3 (amended): in the part_000 Postgres variant, `clear-all` removes all
picks of every participant of the session (the rebuilt state has empty
boards) while the participant rows and the owner are preserved; in the
`server.js` variant, `clear-all` clears only the picks keyed by the
caller's own name, and membership is likewise preserved. -/
theorem c3_clearAll_scope :
    (∀ db sid,
        (Part000.clearAll db sid).state.sessions = db.sessions
        ∧ (Part000.clearAll db sid).state.sessionUsers = db.sessionUsers
        ∧ (Part000.buildSessionState (Part000.clearAll db sid).state
            (strTrim sid)).userSongs = []
        ∧ (Part000.buildSessionState (Part000.clearAll db sid).state (strTrim sid)).users
            = (Part000.buildSessionState db (strTrim sid)).users
        ∧ (Part000.buildSessionState (Part000.clearAll db sid).state (strTrim sid)).owner
            = (Part000.buildSessionState db (strTrim sid)).owner)
    ∧ (∀ (m : ServerJs.MemState) id u s, tblGet m.sessions id = some s →
        tblGet (ServerJs.memClearBoard m id u).sessions id =
          some ⟨s.users, s.picks.filter (fun p => !(strStarts p.1 (u ++ "|")))⟩
        ∧ (ServerJs.memBuildState (ServerJs.memClearBoard m id u) id).users =
            (ServerJs.memBuildState m id).users) := by
  constructor
  · intro db sid
    refine ⟨rfl, rfl, ?_, rfl, rfl⟩
    show songsOfRows []
        ((((db.userPicks.filter (fun r => decide (r.1.1 ≠ strTrim sid))).filter
          (fun r => decide (r.1.1 = strTrim sid))).map
            (fun r => (r.1.2.1, r.1.2.2, r.2)))) = []
    have h₃ : ((db.userPicks.filter (fun r => decide (r.1.1 ≠ strTrim sid))).filter
        (fun r => decide (r.1.1 = strTrim sid))) = [] := by
      rw [List.filter_filter]
      refine List.filter_eq_nil_iff.mpr ?_
      intro r hr
      by_cases h : r.1.1 = strTrim sid <;> simp [h]
    rw [h₃]
    rfl
  · intro m id u s hs
    have h₂ : tblGet (ServerJs.memClearBoard m id u).sessions id =
        some ⟨s.users, s.picks.filter (fun p => !(strStarts p.1 (u ++ "|")))⟩ := by
      simp only [ServerJs.memClearBoard, hs]
      exact tblGet_tblSet_same _ _ _
    refine ⟨h₂, ?_⟩
    show ((sortWith leCI
        (((tblGet (ServerJs.memClearBoard m id u).sessions id).getD ⟨[], []⟩).users)).map
          (fun u => (⟨none, u⟩ : UserEntry))) =
      ((sortWith leCI (((tblGet m.sessions id).getD ⟨[], []⟩).users)).map
        (fun u => (⟨none, u⟩ : UserEntry)))
    rw [h₂, hs]
    rfl

/-- C3 witness: clearing an arbitrary two-user part_000 session, and
clearing alice's board in a concrete two-user memory store. -/
theorem c3_clearAll_scope_witness :
    (Part000.buildSessionState
        (Part000.clearAll
          (Part000.join (Part000.join Part000.pgInit "s" "alice").state "s" "bob").state
          "s").state (strTrim "s")).userSongs = []
    ∧ tblGet (ServerJs.memClearBoard
        (ServerJs.memUpsertPick ServerJs.memInit "s" "alice" "Opener" "X") "s"
        "alice").sessions "s" =
      some ⟨["alice"], [("alice|Opener", "X")].filter
        (fun p => !(strStarts p.1 ("alice" ++ "|")))⟩ := by
  constructor
  · exact (c3_clearAll_scope.1
      (Part000.join (Part000.join Part000.pgInit "s" "alice").state "s" "bob").state
      "s").2.2.1
  · have h := (c3_clearAll_scope.2
      (ServerJs.memUpsertPick ServerJs.memInit "s" "alice" "Opener" "X") "s" "alice"
      ⟨["alice"], [("alice|Opener", "X")]⟩ (by decide)).1
    exact h

/-- C4 counterexample: the part_003 `set-song` handler upserts the raw
payload value — after "alice" joins "s", a set with the empty value
succeeds and `buildSessionState` maps `boards["alice"]["Opener"]` to the
empty string instead of removing the key. -/
theorem c4_counterexample :
    (Part003.setSong (Part003.join Part000.pgInit "s" "alice").state
        "s" "Opener" "" "alice").errMsg = none
    ∧ boardGet ((Part003.buildSessionState
        (Part003.setSong (Part003.join Part000.pgInit "s" "alice").state
          "s" "Opener" "" "alice").state "s")).userSongs "alice" "Opener" = some "" := by
  decide

/-- C4 (amended): for the `server.js` set-song path over the in-memory
backend the claim holds — an upsert is visible in the rebuilt state, a
delete removes the key, the handler routes an empty (trimmed) value to
`deletePick`, and no reachable state maps a slot to the empty string —
whereas the part_003 Postgres handler stores the raw value, so an empty
value is persisted and read back as the empty string. -/
theorem c4_upsert_roundtrip :
    (∀ (m : ServerJs.MemState) id u slot v, pipeFree u = true → pipeFree slot = true →
        WfSession m id →
        boardGet
          (ServerJs.memBuildState (ServerJs.memUpsertPick m id u slot v) id).userSongs
          u slot = some v)
    ∧ (∀ (m : ServerJs.MemState) id u slot, pipeFree u = true → pipeFree slot = true →
        WfSession m id →
        boardGet
          (ServerJs.memBuildState (ServerJs.memDeletePick m id u slot) id).userSongs
          u slot = none)
    ∧ (∀ (σ : Type) (api : ServerJs.Api σ) sm sock p st who,
        tblGet sm sock = some who → strTrim p.slot ∈ ServerJs.SONG_SLOTS →
        strTrim p.value = "" →
        (ServerJs.setSong api sm sock p st).state =
          api.deletePick st (ServerJs.cleanIdOf who p) who.username (strTrim p.slot))
    ∧ (∀ evs id u slot,
        boardGet (ServerJs.memBuildState (ServerJs.memRun evs).1 id).userSongs u slot ≠
          some "") := by
  refine ⟨?_, ?_, ?_, ?_⟩
  · intro m id u slot v hu hslot hws
    exact mem_upsert_roundtrip m id u slot v hu hslot hws
  · intro m id u slot hu hslot hws
    exact mem_delete_roundtrip m id u slot hu hslot hws
  · intro σ api sm sock p st who h hslot hv
    simp [ServerJs.setSong, h, hslot, hv]
  · intro evs id u slot h
    obtain ⟨kv, hkv, hkv₂⟩ := boardGet_value_mem h
    cases htg : tblGet (ServerJs.memRun evs).1.sessions id with
    | none =>
        rw [htg] at hkv
        simp at hkv
    | some s =>
        rw [htg] at hkv
        simp only [Option.getD_some] at hkv
        exact pn_memRun evs (id, s) (tblGet_mem htg) kv hkv hkv₂

/-- C4 witness: a fresh store — "alice" upserts "Horizon" into "Opener" and
reads it back, deleting it removes the key, and the handler with an
all-whitespace value performs the delete. -/
theorem c4_upsert_roundtrip_witness :
    boardGet (ServerJs.memBuildState
        (ServerJs.memUpsertPick ServerJs.memInit "s" "alice" "Opener" "Horizon")
        "s").userSongs "alice" "Opener" = some "Horizon"
    ∧ boardGet (ServerJs.memBuildState
        (ServerJs.memDeletePick ServerJs.memInit "s" "alice" "Opener") "s").userSongs
        "alice" "Opener" = none
    ∧ (ServerJs.setSong ServerJs.memApi [("sockA", ⟨"s", "alice"⟩)] "sockA"
        ⟨"s", "Opener", "   ", "x"⟩ ServerJs.memInit).state =
      ServerJs.memApi.deletePick ServerJs.memInit
        (ServerJs.cleanIdOf ⟨"s", "alice"⟩ ⟨"s", "Opener", "   ", "x"⟩) "alice"
        (strTrim "Opener") := by
  refine ⟨?_, ?_, ?_⟩
  · exact c4_upsert_roundtrip.1 ServerJs.memInit "s" "alice" "Opener" "Horizon"
      (by decide) (by decide) (by intro s hs; simp [ServerJs.memInit, tblGet] at hs)
  · exact c4_upsert_roundtrip.2.1 ServerJs.memInit "s" "alice" "Opener"
      (by decide) (by decide) (by intro s hs; simp [ServerJs.memInit, tblGet] at hs)
  · exact c4_upsert_roundtrip.2.2.1 ServerJs.MemState ServerJs.memApi
      [("sockA", ⟨"s", "alice"⟩)] "sockA" ⟨"s", "Opener", "   ", "x"⟩ ServerJs.memInit
      ⟨"s", "alice"⟩ (by decide) (by decide) (by decide)

/-- C5 counterexample: the part_003 `buildSessionState` orders users with
`COLLATE "C"` — after "alice" joins before "Bob", the reported list is
["Bob", "alice"], which is not sorted case-insensitively. -/
theorem c5_counterexample :
    ¬ ((Part003.buildSessionState
        (Part003.join (Part003.join Part000.pgInit "s" "alice").state "s" "Bob").state
        "s").users).Pairwise (fun a b => leCI a.username b.username = true) := by
  decide

/-- C5 (amended): the `server.js` builders (`memBuildState`, `fsBuildState`)
return the participant list sorted case-insensitively; the Postgres variants
(part_000/part_003 `buildSessionState`) return it in byte order
(`COLLATE "C"`), which is not case-insensitive when cases mix. -/
theorem c5_users_sorted :
    (∀ m id, ((ServerJs.memBuildState m id).users).Pairwise
        (fun a b => leCI a.username b.username = true))
    ∧ (∀ st id, ((ServerJs.fsBuildState st id).users).Pairwise
        (fun a b => leCI a.username b.username = true))
    ∧ (∀ db id, ((Part000.buildSessionState db id).users).Pairwise
        (fun a b => leC a.username b.username = true)) := by
  refine ⟨?_, ?_, ?_⟩
  · intro m id
    show ((sortWith leCI _).map (fun u => (⟨none, u⟩ : UserEntry))).Pairwise _
    refine List.Pairwise.map _ ?_ (sortWith_pairwise leCI_total leCI_trans _)
    intro a b h
    exact h
  · intro st id
    show ((sortWith leCI _).map (fun u => (⟨none, u⟩ : UserEntry))).Pairwise _
    refine List.Pairwise.map _ ?_ (sortWith_pairwise leCI_total leCI_trans _)
    intro a b h
    exact h
  · intro db id
    show ((sortWith leC _).map (fun u => (⟨none, u⟩ : UserEntry))).Pairwise _
    refine List.Pairwise.map _ ?_ (sortWith_pairwise leC_total leC_trans _)
    intro a b h
    exact h

/-- C6 counterexample: after "alice" joins session "s" and sets
"Opener" to "Horizon" in the sqlite variant (part_002), the `set-song`
`db.run` callback broadcasts the locally mutated in-memory session — it
carries `owner = "alice"` and alice's live socket id, while the snapshot
re-read from the durable store (which persists no owner and no sockets)
differs: the two broadcasts are observably distinct. -/
theorem c6_counterexample :
    (Part002.setSong (Part002.join Part002.stInit "sockA" "s" "alice").state
        "sockA" "s" "Opener" "Horizon" "alice").errMsg = none
    ∧ (Part002.setSong (Part002.join Part002.stInit "sockA" "s" "alice").state
        "sockA" "s" "Opener" "Horizon" "alice").broadcast ≠
      some (Part002.specReadState
        (Part002.setSong (Part002.join Part002.stInit "sockA" "s" "alice").state
          "sockA" "s" "Opener" "Horizon" "alice").state "s") := by
  decide

/-- C6 (amended): the `server.js` set-song handler broadcasts exactly the
snapshot obtained by re-reading the backend (`api.buildState`) after the
write, for every backend implementing the storage port; the sqlite variant
(part_002) instead broadcasts its locally mutated session object, which
differs from the store-derived snapshot at reachable states. -/
theorem c6_broadcast_is_fresh_read :
    ∀ (σ : Type) (api : ServerJs.Api σ) sm sock p st who,
      tblGet sm sock = some who → strTrim p.slot ∈ ServerJs.SONG_SLOTS →
      (ServerJs.setSong api sm sock p st).broadcast =
        some (api.buildState (ServerJs.setSong api sm sock p st).state
          (ServerJs.cleanIdOf who p)) := by
  intro σ api sm sock p st who h hslot
  by_cases hv : strTrim p.value = ""
  · simp [ServerJs.setSong, h, hslot, hv]
  · simp [ServerJs.setSong, h, hslot, hv]

/-- C6 witness: a concrete joined socket writing a valid slot over the
memory backend broadcasts the freshly rebuilt state. -/
theorem c6_broadcast_is_fresh_read_witness :
    (ServerJs.setSong ServerJs.memApi [("sockA", ⟨"s", "alice"⟩)] "sockA"
        ⟨"s", "Opener", "X", ""⟩ ServerJs.memInit).broadcast =
      some (ServerJs.memApi.buildState
        (ServerJs.setSong ServerJs.memApi [("sockA", ⟨"s", "alice"⟩)] "sockA"
          ⟨"s", "Opener", "X", ""⟩ ServerJs.memInit).state
        (ServerJs.cleanIdOf ⟨"s", "alice"⟩ ⟨"s", "Opener", "X", ""⟩)) :=
  c6_broadcast_is_fresh_read ServerJs.MemState ServerJs.memApi
    [("sockA", ⟨"s", "alice"⟩)] "sockA" ⟨"s", "Opener", "X", ""⟩ ServerJs.memInit
    ⟨"s", "alice"⟩ (by decide) (by decide)

/-- C7 counterexample: the part_000 `set-song` handler drops a request
naming the non-catalog slot "Banana" silently — no storage change and no
broadcast, but also no error reported to the caller, contradicting the
claimed validation error. -/
theorem c7_counterexample :
    Part000.setSong (Part000.join Part000.pgInit "s" "alice").state
        "s" "Banana" "X" "bob" =
      ⟨(Part000.join Part000.pgInit "s" "alice").state, none, none⟩
    ∧ "Banana" ∉ Part000.SONG_SLOTS := by
  decide

/-- C7 (amended): a set-song naming a slot outside the catalog never reaches
storage and causes no broadcast in both cited variants — `server.js`
reports "Invalid slot." to the caller while part_000 silently ignores the
request — and in the part_000 variant every reachable database and every
rebuilt state contain only catalog slot keys. -/
theorem c7_invalid_slot :
    (∀ db sid slot v u, slot ∉ Part000.SONG_SLOTS →
        Part000.setSong db sid slot v u = ⟨db, none, none⟩)
    ∧ (∀ (σ : Type) (api : ServerJs.Api σ) sm sock p st who,
        tblGet sm sock = some who → strTrim p.slot ∉ ServerJs.SONG_SLOTS →
        ServerJs.setSong api sm sock p st = ⟨st, none, some "Invalid slot."⟩)
    ∧ (∀ db ops, Part000PicksValid db → Part000PicksValid (Part000.run db ops))
    ∧ (∀ db sid, Part000PicksValid db →
        ∀ p ∈ (Part000.buildSessionState db sid).userSongs, ∀ q ∈ p.2,
          q.1 ∈ Part000.SONG_SLOTS) := by
  refine ⟨?_, ?_, ?_, ?_⟩
  · intro db sid slot v u h
    simp [Part000.setSong, h]
  · intro σ api sm sock p st who h hslot
    simp [ServerJs.setSong, h, hslot]
  · intro db ops h
    exact part000_run_picksValid h ops
  · intro db sid h
    exact part000_buildState_slots h sid

/-- C7 witness: the silent part_000 drop, the reported `server.js` error,
and catalog membership of slots surviving a concrete run. -/
theorem c7_invalid_slot_witness :
    Part000.setSong Part000.pgInit "s" "Banana" "X" "bob" = ⟨Part000.pgInit, none, none⟩
    ∧ ServerJs.setSong ServerJs.memApi [("sockA", ⟨"s", "alice"⟩)] "sockA"
        ⟨"s", "Banana", "X", ""⟩ ServerJs.memInit =
      ⟨ServerJs.memInit, none, some "Invalid slot."⟩
    ∧ "Encore" ∈ Part000.SONG_SLOTS
    ∧ "Opener" ∈ Part000.SONG_SLOTS := by
  refine ⟨?_, ?_, ?_, ?_⟩
  · exact c7_invalid_slot.1 Part000.pgInit "s" "Banana" "X" "bob" (by decide)
  · exact c7_invalid_slot.2.1 ServerJs.MemState ServerJs.memApi
      [("sockA", ⟨"s", "alice"⟩)] "sockA" ⟨"s", "Banana", "X", ""⟩ ServerJs.memInit
      ⟨"s", "alice"⟩ (by decide) (by decide)
  · exact c7_invalid_slot.2.2.1 Part000.pgInit
      [Part000.Op.join "s" "alice", Part000.Op.setSong "s" "Encore" "Y" "alice"]
      (by intro r hr; simp [Part000.pgInit] at hr)
      (("s", "alice", "Encore"), "Y") (by decide)
  · exact c7_invalid_slot.2.2.2
      (Part000.run Part000.pgInit
        [Part000.Op.join "s" "alice", Part000.Op.setSong "s" "Opener" "X" "alice"])
      "s" (by unfold Part000PicksValid; decide) ("alice", [("Opener", "X")]) (by decide)
      ("Opener", "X") (by decide)

/-- C10 counterexample: the in-memory round trip fails with the pipe-free
username "alice" once the slot itself contains a pipe — the stored key
"alice|x|y" is split at every pipe and only the first two components are
kept, so the rebuilt state maps ("alice", "x") and not ("alice", "x|y"):
the username precondition alone does not delimit the guarantee. -/
theorem c10_counterexample :
    pipeFree "alice" = true
    ∧ boardGet (ServerJs.memBuildState
        (ServerJs.memUpsertPick ServerJs.memInit "s" "alice" "x|y" "Song")
        "s").userSongs "alice" "x|y" = none
    ∧ boardGet (ServerJs.memBuildState
        (ServerJs.memUpsertPick ServerJs.memInit "s" "alice" "x|y" "Song")
        "s").userSongs "alice" "x" = some "Song" := by
  decide

/-- C10 (amended): picks are stored under `${username}|${slot}` and the
builder splits each key at every pipe, keeping the first two components,
so the round trip `upsertPick` then `buildState` holds for every username
and slot containing no pipe (over a well-keyed store), and fails outside
that precondition, e.g. for the username "a|b". -/
theorem c10_mem_key_roundtrip :
    (∀ (m : ServerJs.MemState) id u slot v, pipeFree u = true → pipeFree slot = true →
        WfSession m id →
        boardGet
          (ServerJs.memBuildState (ServerJs.memUpsertPick m id u slot v) id).userSongs
          u slot = some v)
    ∧ boardGet (ServerJs.memBuildState
        (ServerJs.memUpsertPick ServerJs.memInit "s" "a|b" "Opener" "V") "s").userSongs
        "a|b" "Opener" = none := by
  constructor
  · intro m id u slot v hu hslot hws
    exact mem_upsert_roundtrip m id u slot v hu hslot hws
  · decide

/-- C10 witness: the pipe-free round trip at a concrete input. -/
theorem c10_mem_key_roundtrip_witness :
    boardGet (ServerJs.memBuildState
        (ServerJs.memUpsertPick ServerJs.memInit "s2" "Carol" "Bustout" "Kiwi")
        "s2").userSongs "Carol" "Bustout" = some "Kiwi" :=
  c10_mem_key_roundtrip.1 ServerJs.memInit "s2" "Carol" "Bustout" "Kiwi"
    (by decide) (by decide) (by intro s hs; simp [ServerJs.memInit, tblGet] at hs)
